import Mathlib

/-!
jap (Just Another Portmapper): the relay thread and the accept loop

A shallow embedding of `src/jap.c`.

* System calls are answered by a *script*: a list of kernel answers consumed
  in program order.  Every call the program issues is appended to a *trace*
  together with the answer it got, so that statements about "what was sent",
  "what was closed" are statements about the trace.
* The two descriptors of one relay task are named by their role
  (`Sock.remote` is the local `remote_socket`, `Sock.client` is
  `args->client_socket`); an `fd_set` is therefore a pair of membership bits.
* C `int`/`ssize_t` values are `Int`; `remote_start`/`client_start`, which the
  source leaves uninitialised, are `Option Int`; a buffer is the list of the
  bytes stored in it so far.
* Diagnostic output (`perror`, `fprintf`, `puts`) is not modelled, and `malloc`
  is taken to succeed (the source does not test its result).
* A loop of the source is a function with an iteration budget; the budget
  given is one more than the number of answers left, and the theorems show it
  is never used up.
-/

namespace Jap

/-! ## Constants -/

/-- Line 42: `#define JAP_CONNECTION_TIMEOUT 5`. -/
def JAP_CONNECTION_TIMEOUT : Nat := 5

/-- Line 43: `#define JAP_BUFFER_SIZE 15000`. -/
def JAP_BUFFER_SIZE : Nat := 15000

/-- The value of `EAGAIN` in `<errno.h>` (Linux). -/
def EAGAIN : Int := 11

/-- The value of `EINPROGRESS` in `<errno.h>` (Linux). -/
def EINPROGRESS : Int := 115

/-! ## Descriptors, descriptor sets, kernel answers -/

abbrev Byte := Nat

/-- The two descriptors owned by one relay task. -/
inductive Sock where
  | remote
  | client
  deriving DecidableEq, Repr

/-- The other descriptor of the task. -/
def Sock.peer : Sock → Sock
  | .remote => .client
  | .client => .remote

/-- An `fd_set`, restricted to the two descriptors of the task. -/
structure FdSet where
  remote : Bool
  client : Bool
  deriving DecidableEq, Repr

def FD_ZERO : FdSet := ⟨false, false⟩

def FD_SET : Sock → FdSet → FdSet
  | .remote, f => ⟨true, f.client⟩
  | .client, f => ⟨f.remote, true⟩

def FD_ISSET : Sock → FdSet → Bool
  | .remote, f => f.remote
  | .client, f => f.client

/-- What `select` leaves in a set: the registered descriptors that are ready. -/
def FdSet.inter (a b : FdSet) : FdSet := ⟨a.remote && b.remote, a.client && b.client⟩

/-- A `struct sockaddr_in` (the fields the program uses). -/
structure SockAddr where
  sin_port : Nat
  s_addr : Nat
  deriving DecidableEq, Repr

/-- Lines 45-48: `ProxyThreadArgs`. -/
structure ProxyThreadArgs where
  remote_address : SockAddr
  client_socket : Int
  deriving DecidableEq, Repr

/-- The kernel's answer to one system call: the return value, the `errno` it
leaves, and what it stores through pointer arguments (`data` for `recv`,
`optval` for `getsockopt`, the ready descriptors for `select`). -/
structure Ret where
  val : Int
  errno : Int
  data : List Byte
  optval : Int
  rfds : FdSet
  wfds : FdSet
  deriving DecidableEq, Repr

/-- A system call as issued by `proxy_thread`, with the arguments that matter. -/
inductive Call where
  | socket
  | fcntl_getfl (s : Sock)
  | fcntl_setfl (s : Sock)
  | setsockopt_nodelay (s : Sock)
  | connect (addr : SockAddr)
  /-- The arguments are `rfds`, `wfds`, `efds` (if not `NULL`) and the timeout in seconds (if not `NULL`). -/
  | select (rfds wfds : FdSet) (efds : Option FdSet) (timeout : Option Nat)
  | getsockopt_so_error
  | recv (s : Sock) (size : Nat)
  /-- The arguments are `buf + off`, `len`; `bytes` is the content of that region. -/
  | send (s : Sock) (off len : Int) (bytes : List Byte)
  | shutdown_wr (s : Sock)
  | close (s : Sock)
  | free_args
  deriving DecidableEq, Repr

/-- One trace entry: the call and the answer the program received (`none` for
`close` and `free`, whose result the program does not look at). -/
structure Entry where
  call : Call
  ans : Option Ret
  deriving DecidableEq, Repr

/-- The environment of a run: the answers still to come and the calls made so far. -/
structure World where
  script : List Ret
  trace : List Entry
  deriving DecidableEq, Repr

/-- Issue a call whose result the program inspects: takes the next answer. -/
def sys (c : Call) (w : World) : Option (Ret × World) :=
  match w.script with
  | [] => none
  | r :: rest => some (r, ⟨rest, w.trace ++ [⟨c, some r⟩]⟩)

/-- Issue a call whose result the program ignores (`close`, `free`). -/
def act (c : Call) (w : World) : World := ⟨w.script, w.trace ++ [⟨c, none⟩]⟩

/-! ## Control flow -/

/-- The statements through which `proxy_thread` leaves its straight-line flow. -/
inductive Exit where
  /-- Line 119, `goto _return_nosocket`. -/
  | socket
  /-- Lines 125 and 136. -/
  | fcntl_getfl (s : Sock)
  /-- Lines 130 and 141. -/
  | fcntl_setfl (s : Sock)
  /-- Line 156. -/
  | connect
  /-- Line 171. -/
  | select_connect
  /-- Line 175, connection timed out. -/
  | timeout
  /-- Line 184. -/
  | getsockopt
  /-- Line 190. -/
  | so_error
  /-- Line 209, the `break`. -/
  | done
  /-- Lines 218 and 246: `shutdown` failed after end-of-stream from `src`. -/
  | shutdown (src : Sock)
  /-- Lines 221 and 249: end-of-stream from `src`. -/
  | eof (src : Sock)
  /-- Lines 226 and 254: `recv` on `src` failed. -/
  | recv (src : Sock)
  /-- Line 271. -/
  | select
  /-- Lines 289 and 318: `send` to `dst` failed. -/
  | send (dst : Sock)
  deriving DecidableEq, Repr

/-- Why the model stops without the program reaching `return`. -/
inductive Halt where
  /-- The script has no answer for the pending call. -/
  | blocked
  /-- The iteration budget of a loop ran out. -/
  | fuel
  /-- An uninitialised local was read. -/
  | uninit
  deriving DecidableEq, Repr

/-- The result of running a piece of code. -/
inductive Flow (α : Type) where
  /-- Control falls through to the next statement. -/
  | next (a : α) (w : World)
  /-- A `goto _return`, `goto _return_nosocket` or `break` was executed. -/
  | leave (e : Exit) (a : α) (w : World)
  | halt (h : Halt) (w : World)
  deriving DecidableEq, Repr

/-- Issue the call `c` and go on with `k`, given the answer; when the script has
no answer left, the run stops there. -/
def call {α : Type} (c : Call) (w : World) (k : Ret → World → Flow α) : Flow α :=
  match sys c w with
  | none => .halt .blocked w
  | some (r, w) => k r w

/-! ## The connection phase, lines 116-194 -/

/-- Lines 116-192 of `proxy_thread`. -/
def establish (args : ProxyThreadArgs) (w : World) : Flow Unit :=
  call .socket w fun remote_socket w =>
  if remote_socket.val = -1 then .leave .socket () w else
  call (.fcntl_getfl .remote) w fun flags w =>
  if flags.val = -1 then .leave (.fcntl_getfl .remote) () w else
  call (.fcntl_setfl .remote) w fun r w =>
  if r.val ≠ 0 then .leave (.fcntl_setfl .remote) () w else
  call (.fcntl_getfl .client) w fun flags w =>
  if flags.val = -1 then .leave (.fcntl_getfl .client) () w else
  call (.fcntl_setfl .client) w fun r w =>
  if r.val ≠ 0 then .leave (.fcntl_setfl .client) () w else
  call (.setsockopt_nodelay .remote) w fun _ w =>
  call (.connect args.remote_address) w fun retval w =>
  if retval.val ≠ 0 ∧ retval.errno ≠ EINPROGRESS then .leave .connect () w else
  if retval.val ≠ 0 then
    call (.select ⟨true, false⟩ ⟨true, false⟩ (some ⟨true, false⟩) (some JAP_CONNECTION_TIMEOUT)) w
      fun retval w =>
    if retval.val = -1 then .leave .select_connect () w else
    if retval.val = 0 then .leave .timeout () w else
    call .getsockopt_so_error w fun r w =>
    if r.val ≠ 0 then .leave .getsockopt () w else
    if r.optval ≠ 0 then .leave .so_error () w else
    .next () w
  else .next () w

/-! ## The copy loop, lines 196-331 -/

/-- The locals of one direction: `X_buf`, `X_len`, `X_start`, `X_shutdown`. -/
structure Dir where
  buf : List Byte
  len : Int
  start : Option Int
  shutdown : Int
  deriving DecidableEq, Repr

/-- The locals of the copy loop. `remote` is the direction remote to client
(`remote_buf`, ...), `client` the direction client to remote. -/
structure Locals where
  remote : Dir
  client : Dir
  deriving DecidableEq, Repr

/-- The two descriptor sets handed to `select`. -/
structure Fds where
  rfds : FdSet
  wfds : FdSet
  deriving DecidableEq, Repr

/-- What `recv` does to the buffer: `data` overwrites its first bytes. -/
def store (data buf : List Byte) : List Byte := data ++ buf.drop data.length

/-- The region `buf + off` of length `n`. -/
def region (buf : List Byte) (off n : Int) : List Byte := (buf.drop off.toNat).take n.toNat

/-- Lines 211-236 for `src = remote` and lines 238-264 for `src = client`:
the read attempt of the direction whose source is `src`. -/
def recv_phase (src : Sock) (d : Dir) (fds : Fds) (w : World) : Flow (Dir × Fds) :=
  if d.len = 0 ∧ d.shutdown = 0 then
    call (.recv src JAP_BUFFER_SIZE) w fun retval w =>
    if retval.val = 0 then
      let d := { d with shutdown := 1 }
      call (.shutdown_wr src.peer) w fun r w =>
      if r.val ≠ 0 then .leave (.shutdown src) (d, fds) w else
      .leave (.eof src) (d, fds) w
    else if retval.val = -1 then
      if retval.errno ≠ EAGAIN then .leave (.recv src) (d, fds) w else
      .next (d, { fds with rfds := FD_SET src fds.rfds }) w
    else
      .next ({ d with buf := store retval.data d.buf, len := retval.val, start := some 0 },
             { fds with wfds := FD_SET src.peer fds.wfds }) w
  else
    .next (d, { fds with wfds := FD_SET src.peer fds.wfds }) w

/-- Lines 281-297 (`dst = remote`) and 310-326 (`dst = client`): the send loop.
The state is the direction's locals and `sent_total`; the answer `next` carries
them at the loop's end, whether by its condition or by the `break`. -/
def send_loop (dst : Sock) (tosend : Int) : Nat → Dir → Int → World → Flow (Dir × Int)
  | 0, _, _, w => .halt .fuel w
  | fuel + 1, d, sent_total, w =>
    if sent_total < tosend then
      call (.send dst sent_total (d.len - sent_total)
        (region d.buf sent_total (d.len - sent_total))) w fun sent_last w =>
      if sent_last.val = -1 then
        if sent_last.errno ≠ EAGAIN then .leave (.send dst) (d, sent_total) w else
        .next (d, sent_total) w
      else
        send_loop dst tosend fuel { d with start := d.start.map (· + sent_last.val) }
          (sent_total + sent_last.val) w
    else .next (d, sent_total) w

/-- Lines 274-301 (`dst = remote`, `d` the client direction) and lines 303-330
(`dst = client`, `d` the remote direction). -/
def send_phase (dst : Sock) (d : Dir) (fds : Fds) (w : World) : Flow Dir :=
  if FD_ISSET dst fds.wfds then
    let tosend := d.len
    match d.start with
    | none => .halt .uninit w
    | some sent_total =>
    match send_loop dst tosend (w.script.length + 1) d sent_total w with
    | .halt h w => .halt h w
    | .leave e (d, _) w => .leave e d w
    | .next (d, sent_total) w =>
      if sent_total ≥ tosend then .next { d with len := 0 } w else .next d w
  else .next d w

/-- Lines 202-264: the head of an iteration, up to the `select`: the `break`
test and the two read attempts, which fill the descriptor sets. -/
def read_half (l : Locals) (w : World) : Flow (Locals × Fds) :=
  let fds : Fds := ⟨FD_ZERO, FD_ZERO⟩
  if l.remote.len = 0 ∧ l.client.len = 0 ∧ l.remote.shutdown = 1 ∧ l.client.shutdown = 1 then
    .leave .done (l, fds) w
  else
  match recv_phase .remote l.remote fds w with
  | .halt h w => .halt h w
  | .leave e (d, fds) w => .leave e ({ l with remote := d }, fds) w
  | .next (d, fds) w =>
  let l := { l with remote := d }
  match recv_phase .client l.client fds w with
  | .halt h w => .halt h w
  | .leave e (d, fds) w => .leave e ({ l with client := d }, fds) w
  | .next (d, fds) w => .next ({ l with client := d }, fds) w

/-- Lines 266-330: the `select` and the two send blocks. -/
def write_half (l : Locals) (fds : Fds) (w : World) : Flow Locals :=
  call (.select fds.rfds fds.wfds none none) w fun retval w =>
  if retval.val = -1 then .leave .select l w else
  let fds : Fds := ⟨fds.rfds.inter retval.rfds, fds.wfds.inter retval.wfds⟩
  match send_phase .remote l.client fds w with
  | .halt h w => .halt h w
  | .leave e d w => .leave e { l with client := d } w
  | .next d w =>
  let l := { l with client := d }
  match send_phase .client l.remote fds w with
  | .halt h w => .halt h w
  | .leave e d w => .leave e { l with remote := d } w
  | .next d w => .next { l with remote := d } w

/-- Lines 202-330: one iteration of the `while (1)` loop. -/
def loop_body (l : Locals) (w : World) : Flow Locals :=
  match read_half l w with
  | .halt h w => .halt h w
  | .leave e (l, _) w => .leave e l w
  | .next (l, fds) w => write_half l fds w

/-- Lines 196-199: the locals at the first iteration. -/
def init_locals : Locals :=
  ⟨⟨[], 0, none, 0⟩, ⟨[], 0, none, 0⟩⟩

/-- Lines 201-331: the `while (1)` loop. -/
def copy_loop : Nat → Locals → World → Flow Locals
  | 0, _, w => .halt .fuel w
  | fuel + 1, l, w =>
    match loop_body l w with
    | .next l w => copy_loop fuel l w
    | other => other

/-- Lines 333-339: the labels `_return` and `_return_nosocket`. -/
def cleanup (e : Exit) (w : World) : World :=
  let w := if e = .socket then w else act (.close .remote) w
  let w := act (.close .client) w
  act .free_args w

/-- How a run of `proxy_thread` ends. -/
inductive Status where
  /-- The function reached `return 0`, having left its body through `via`. -/
  | returned (via : Exit)
  | halted (h : Halt)
  deriving DecidableEq, Repr

/-- A finished (or stopped) run: its status, the locals of the copy loop if it
was entered, and the world with the full trace. -/
structure Run where
  status : Status
  locals : Option Locals
  world : World
  deriving DecidableEq, Repr

/-- Lines 98-340. -/
def proxy_thread (args : ProxyThreadArgs) (script : List Ret) : Run :=
  match establish args ⟨script, []⟩ with
  | .halt h w => ⟨.halted h, none, w⟩
  | .leave e _ w => ⟨.returned e, none, cleanup e w⟩
  | .next _ w =>
    match copy_loop (w.script.length + 1) init_locals w with
    | .halt h w => ⟨.halted h, none, w⟩
    | .leave e l w => ⟨.returned e, some l, cleanup e w⟩
    | .next l w => ⟨.halted .fuel, some l, w⟩

/-- The state at the head of the `n`-th iteration of the copy loop (counting
from 0), if the loop body ran to its end `n` times. -/
def iterate_body : Nat → Locals → World → Option (Locals × World)
  | 0, l, w => some (l, w)
  | n + 1, l, w =>
    match loop_body l w with
    | .next l w => iterate_body n l w
    | _ => none

/-- The state at the head of the `n`-th iteration of the copy loop in the run
of `proxy_thread` on `script`, if that run gets there. -/
def head_at (args : ProxyThreadArgs) (script : List Ret) (n : Nat) : Option (Locals × World) :=
  match establish args ⟨script, []⟩ with
  | .next _ w => iterate_body n init_locals w
  | _ => none

/-! ## The accept loop of `main`, lines 414-453 -/

/-- What `main` has set up before the accept loop (lines 357-412): the flag
`restricted` and the two addresses the loop reads. -/
structure Config where
  restricted : Int
  restriction_address : SockAddr
  remote_address : SockAddr
  deriving DecidableEq, Repr

/-- What the environment supplies for one pass of the accept loop: the return
value of `accept` and the peer address it stores, and the return values of
`setsockopt` and (if it is called) `pthread_create`. -/
structure Accept where
  client_socket : Int
  client_address : SockAddr
  setsockopt : Int
  pthread_create : Int
  deriving DecidableEq, Repr

/-- A call issued by the accept loop after `accept`. `malloc` stands for lines
438-441, which allocate the argument block and fill it in. -/
inductive MainCall where
  | setsockopt_nodelay (fd : Int)
  | malloc (block : ProxyThreadArgs)
  | pthread_create (args : ProxyThreadArgs) (ret : Int)
  | pthread_detach
  | close (fd : Int)
  deriving DecidableEq, Repr

/-- Lines 424-452 of `main`: what the accept loop does with one accepted
connection. -/
def main_iteration (cfg : Config) (a : Accept) : List MainCall :=
  .setsockopt_nodelay a.client_socket ::
  if cfg.restricted = 0 ∨
      (cfg.restricted ≠ 0 ∧ a.client_address.s_addr = cfg.restriction_address.s_addr) then
    let thread_args : ProxyThreadArgs := ⟨cfg.remote_address, a.client_socket⟩
    .malloc thread_args :: .pthread_create thread_args a.pthread_create ::
      (if a.pthread_create ≠ 0 then [] else [.pthread_detach])
  else
    [.close a.client_socket]

/-- Lines 414-453 of `main`: the accept loop, over the connections the
environment offers (what precedes the loop is summarised by `cfg`). The second
component is the value `main` returns, if it does. -/
def main (cfg : Config) : List Accept → List MainCall × Option Int
  | [] => ([], none)
  | a :: rest =>
    if a.client_socket = -1 then ([], some (-1))
    else (main_iteration cfg a ++ (main cfg rest).1, (main cfg rest).2)

/-- The relay threads that were started: the argument blocks of the
`pthread_create` calls that returned 0. -/
def started : List MainCall → List ProxyThreadArgs
  | [] => []
  | .pthread_create args ret :: t => if ret = 0 then args :: started t else started t
  | _ :: t => started t

/-! ## Observations on a trace -/

/-- The bytes one trace entry received from `src`. -/
def recvd (src : Sock) (e : Entry) : List Byte :=
  match e.call, e.ans with
  | .recv s _, some r => if s = src ∧ 0 < r.val then r.data else []
  | _, _ => []

/-- The bytes one trace entry handed successfully to `send` on `dst`: a
`send` that returned `k > 0` took the first `k` bytes of its region. -/
def accepted (dst : Sock) (e : Entry) : List Byte :=
  match e.call, e.ans with
  | .send s _ _ bytes, some r => if s = dst ∧ 0 < r.val then bytes.take r.val.toNat else []
  | _, _ => []

/-- All bytes returned so far by `recv` on `src`, in order. -/
def rx (src : Sock) : List Entry → List Byte
  | [] => []
  | e :: t => recvd src e ++ rx src t

/-- All bytes handed successfully so far to `send` on `dst`, in order. -/
def tx (dst : Sock) : List Entry → List Byte
  | [] => []
  | e :: t => accepted dst e ++ tx dst t

/-- The unsent region `buf[X_start, X_len)` of a direction, empty when `X_len == 0`. -/
def unsent (d : Dir) : List Byte :=
  if d.len = 0 then [] else
    match d.start with
    | some st => region d.buf st (d.len - st)
    | none => []

/-- The kernel keeps its contract in this entry: `recv` returns -1, 0 or the
number of bytes it stored, at most the size asked for; `send` returns -1 or a
count between 1 and the length asked for. Nothing is asked of other calls. -/
def Conf (e : Entry) : Prop :=
  match e.call, e.ans with
  | .recv _ size, some r =>
      r.val = -1 ∨ r.val = 0 ∨ (1 ≤ r.val ∧ r.val ≤ size ∧ (r.data.length : Int) = r.val)
  | .send _ _ len _, some r => r.val = -1 ∨ (1 ≤ r.val ∧ r.val ≤ len)
  | _, _ => True

instance : DecidablePred Conf := fun e => by
  unfold Conf
  split <;> infer_instance

/-- The kernel keeps its contract in every entry of the trace. -/
def ConfAll (t : List Entry) : Prop := ∀ e ∈ t, Conf e

instance (t : List Entry) : Decidable (ConfAll t) := by
  unfold ConfAll
  infer_instance

/-- The number of `close` calls on `s` in a trace. -/
def closes (s : Sock) (t : List Entry) : Nat := t.countP (fun e => e.call = .close s)

/-- The number of `free` calls in a trace. -/
def frees (t : List Entry) : Nat := t.countP (fun e => e.call = .free_args)

/-- An entry in which `recv` or `send` reports an error other than would-block,
or `select` or `shutdown` fails. -/
def IoError (e : Entry) : Prop :=
  match e.call, e.ans with
  | .recv _ _, some r => r.val = -1 ∧ r.errno ≠ EAGAIN
  | .send _ _ _ _, some r => r.val = -1 ∧ r.errno ≠ EAGAIN
  | .select _ _ _ _, some r => r.val = -1
  | .shutdown_wr _, some r => r.val ≠ 0
  | _, _ => False

instance : DecidablePred IoError := fun e => by
  unfold IoError
  split <;> infer_instance

/-! ## Sample answers and scripts -/

/-- An answer with return value `v`. -/
def Ret.ok (v : Int) : Ret := ⟨v, 0, [], 0, FD_ZERO, FD_ZERO⟩

/-- A failure with `errno = e`. -/
def Ret.fail (e : Int) : Ret := ⟨-1, e, [], 0, FD_ZERO, FD_ZERO⟩

/-- A `recv` that stores `bs`. -/
def Ret.bytes (bs : List Byte) : Ret := ⟨bs.length, 0, bs, 0, FD_ZERO, FD_ZERO⟩

/-- A `select` that reports the descriptors of `r` readable and those of `w` writable. -/
def Ret.ready (r w : FdSet) : Ret := ⟨1, 0, [], 0, r, w⟩

def demo_args : ProxyThreadArgs := ⟨⟨80, 1⟩, 4⟩

/-- A connection phase that succeeds at once: `socket` returns 5, the four
`fcntl` calls and `setsockopt` succeed, `connect` returns 0. -/
def demo_connect : List Ret := [.ok 5, .ok 2, .ok 0, .ok 2, .ok 0, .ok 0, .ok 0]

/-! ## Predicates and sample data used by the theorems -/

/-- An entry that can occur while the copy loop keeps running: no `close`,
`free` or `shutdown`, and no `recv` that returned 0. -/
def Quiet (e : Entry) : Prop :=
  match e.call, e.ans with
  | .close _, _ => False
  | .free_args, _ => False
  | .shutdown_wr _, _ => False
  | .recv _ _, some r => r.val ≠ 0
  | _, _ => True

def QuietAll (t : List Entry) : Prop := ∀ e ∈ t, Quiet e

/-- What holds of a call of the copy loop given the trace `pre` before it. -/
def EntryOk (pre : List Entry) (e : Entry) : Prop :=
  match e.call with
  | .recv src size => size = JAP_BUFFER_SIZE ∧ tx src.peer pre = rx src pre
  | .send dst off len bytes =>
      0 ≤ off ∧ 0 < len ∧ off + len ≤ JAP_BUFFER_SIZE ∧ (bytes.length : Int) = len ∧
        tx dst pre ++ bytes = rx dst.peer pre
  | .select rfds wfds none none =>
      ∀ src : Sock, (FD_ISSET src rfds = true ↔ tx src.peer pre = rx src pre) ∧
        (FD_ISSET src.peer wfds = true ↔ tx src.peer pre ≠ rx src pre)
  | _ => True

/-- Every entry of the trace is as `EntryOk` says, provided the kernel kept
its contract before it. -/
def TraceOk (t : List Entry) : Prop :=
  ∀ pre e post, t = pre ++ e :: post → ConfAll pre → EntryOk pre e

/-- The invariant of one direction, relative to the trace. -/
structure DirOk (src : Sock) (d : Dir) (t : List Entry) : Prop where
  len_nonneg : 0 ≤ d.len
  len_le : d.len ≤ JAP_BUFFER_SIZE
  buf_le : d.buf.length ≤ JAP_BUFFER_SIZE
  flushed : d.len = 0 → tx src.peer t = rx src t
  pending : d.len ≠ 0 → ∃ st, d.start = some st ∧ 0 ≤ st ∧ st < d.len ∧
    d.len ≤ d.buf.length ∧ tx src.peer t ++ region d.buf st (d.len - st) = rx src t

/-- A predicate on each of the three ways a piece of code can end. -/
def Flow.sat {α : Type} (f : Flow α) (N : α → World → Prop) (L : Exit → α → World → Prop)
    (H : Halt → World → Prop) : Prop :=
  match f with
  | .next a w => N a w
  | .leave e a w => L e a w
  | .halt h w => H h w

/-- How the trace ends when the copy loop is left through `e`. -/
def ExitWhy (e : Exit) (t : List Entry) : Prop :=
  match e with
  | .recv src => ∃ p r, t = p ++ [⟨.recv src JAP_BUFFER_SIZE, some r⟩] ∧
      r.val = -1 ∧ r.errno ≠ EAGAIN ∧ QuietAll p
  | .eof src => ∃ p r r2, t = p ++ [⟨.recv src JAP_BUFFER_SIZE, some r⟩,
      ⟨.shutdown_wr src.peer, some r2⟩] ∧ r.val = 0 ∧ r2.val = 0 ∧ QuietAll p
  | .shutdown src => ∃ p r r2, t = p ++ [⟨.recv src JAP_BUFFER_SIZE, some r⟩,
      ⟨.shutdown_wr src.peer, some r2⟩] ∧ r.val = 0 ∧ r2.val ≠ 0 ∧ QuietAll p
  | .select => ∃ p rf wf r, t = p ++ [⟨.select rf wf none none, some r⟩] ∧
      r.val = -1 ∧ QuietAll p
  | .send dst => ∃ p off len bytes r, t = p ++ [⟨.send dst off len bytes, some r⟩] ∧
      r.val = -1 ∧ r.errno ≠ EAGAIN ∧ QuietAll p
  | _ => False

/-- What holds when the model stops inside the copy loop: the script is
exhausted, and the trace is quiet except possibly for a last `recv` that
returned 0 (its `shutdown` is the pending call). -/
def HaltOk (h : Halt) (w : World) : Prop :=
  h = .blocked ∧ w.script = [] ∧ TraceOk w.trace ∧
    (QuietAll w.trace ∨ ∃ p src r, w.trace = p ++ [⟨.recv src JAP_BUFFER_SIZE, some r⟩] ∧
      r.val = 0 ∧ QuietAll p)

/-- What holds of a direction whatever the kernel answers: its shutdown flag is
0 and its start index is initialised whenever its length is not 0. -/
structure DirU (d : Dir) : Prop where
  shut : d.shutdown = 0
  init : d.len ≠ 0 → d.start ≠ none

/-- What a read attempt that falls through establishes. -/
structure RecvNext (src : Sock) (d : Dir) (fds : Fds) (w : World)
    (d1 : Dir) (fds1 : Fds) (w1 : World) : Prop where
  unc : DirU d1
  quiet : QuietAll w1.trace
  ok : TraceOk w1.trace
  dir : ConfAll w1.trace → DirOk src d1 w1.trace
  conf : ConfAll w1.trace → ConfAll w.trace
  tx_eq : ∀ s, tx s w1.trace = tx s w.trace
  rx_eq : rx src.peer w1.trace = rx src.peer w.trace
  script : w1.script.length ≤ w.script.length
  rbit : FD_ISSET src fds.rfds = false → (FD_ISSET src fds1.rfds = true ↔ d1.len = 0)
  wbit : FD_ISSET src.peer fds.wfds = false → (FD_ISSET src.peer fds1.wfds = true ↔ d1.len ≠ 0)
  rkeep : FD_ISSET src.peer fds1.rfds = FD_ISSET src.peer fds.rfds
  wkeep : FD_ISSET src fds1.wfds = FD_ISSET src fds.wfds

/-- The invariant of a send loop writing direction `d` to `dst`, with
`sent_total = st`. -/
structure SendInv (dst : Sock) (d : Dir) (st : Int) (t : List Entry) : Prop where
  st_nonneg : 0 ≤ st
  st_le : st ≤ d.len
  len_le : d.len ≤ JAP_BUFFER_SIZE
  len_buf : d.len ≤ d.buf.length
  buf_le : d.buf.length ≤ JAP_BUFFER_SIZE
  rest : tx dst t ++ region d.buf st (d.len - st) = rx dst.peer t

/-- What a send loop that ends normally establishes. -/
structure SendNext (dst : Sock) (d : Dir) (w : World) (d1 : Dir) (st1 : Int) (w1 : World) :
    Prop where
  buf_eq : d1.buf = d.buf
  len_eq : d1.len = d.len
  shut_eq : d1.shutdown = d.shutdown
  start_eq : d1.start = some st1
  quiet : QuietAll w1.trace
  ok : TraceOk w1.trace
  inv : ConfAll w1.trace → SendInv dst d1 st1 w1.trace
  conf : ConfAll w1.trace → ConfAll w.trace
  rx_eq : ∀ s, rx s w1.trace = rx s w.trace
  tx_eq : tx dst.peer w1.trace = tx dst.peer w.trace
  script : w1.script.length ≤ w.script.length

/-- What a send block that falls through establishes. -/
structure SendDone (dst : Sock) (w : World) (d1 : Dir) (w1 : World) : Prop where
  unc : DirU d1
  quiet : QuietAll w1.trace
  ok : TraceOk w1.trace
  dir : ConfAll w1.trace → DirOk dst.peer d1 w1.trace
  conf : ConfAll w1.trace → ConfAll w.trace
  rx_eq : ∀ s, rx s w1.trace = rx s w.trace
  tx_eq : tx dst.peer w1.trace = tx dst.peer w.trace
  script : w1.script.length ≤ w.script.length

/-- The invariant at the head of an iteration of the copy loop. -/
structure Head (l : Locals) (w : World) : Prop where
  uR : DirU l.remote
  uC : DirU l.client
  quiet : QuietAll w.trace
  ok : TraceOk w.trace
  dirR : ConfAll w.trace → DirOk .remote l.remote w.trace
  dirC : ConfAll w.trace → DirOk .client l.client w.trace

/-- The invariant at the `select` of the copy loop. -/
structure Mid (l : Locals) (fds : Fds) (w : World) extends Head l w : Prop where
  rbitR : FD_ISSET .remote fds.rfds = true ↔ l.remote.len = 0
  wbitR : FD_ISSET .client fds.wfds = true ↔ l.remote.len ≠ 0
  rbitC : FD_ISSET .client fds.rfds = true ↔ l.client.len = 0
  wbitC : FD_ISSET .remote fds.wfds = true ↔ l.client.len ≠ 0

/-- An entry of the connection phase. -/
def Setup (e : Entry) : Prop :=
  match e.call with
  | .socket => True
  | .fcntl_getfl _ => True
  | .fcntl_setfl _ => True
  | .setsockopt_nodelay _ => True
  | .connect _ => True
  | .select _ _ (some _) (some _) => True
  | .getsockopt_so_error => True
  | _ => False

def SetupAll (t : List Entry) : Prop := ∀ e ∈ t, Setup e

/-- The calls of the connection phase, in program order. -/
def setup_calls (args : ProxyThreadArgs) : List Call :=
  [.socket, .fcntl_getfl .remote, .fcntl_setfl .remote, .fcntl_getfl .client,
   .fcntl_setfl .client, .setsockopt_nodelay .remote, .connect args.remote_address,
   .select ⟨true, false⟩ ⟨true, false⟩ (some ⟨true, false⟩) (some JAP_CONNECTION_TIMEOUT),
   .getsockopt_so_error]

/-- The trace of a connection phase that received the answers `rs`. -/
def est_trace (args : ProxyThreadArgs) (rs : List Ret) : List Entry :=
  List.zipWith (fun c r => ⟨c, some r⟩) (setup_calls args) rs

/-- The answers with which the connection phase falls through to the copy loop. -/
def Entered (rs : List Ret) : Prop :=
  match rs with
  | [r1, r2, r3, r4, r5, _, r7] =>
      r1.val ≠ -1 ∧ r2.val ≠ -1 ∧ r3.val = 0 ∧ r4.val ≠ -1 ∧ r5.val = 0 ∧ r7.val = 0
  | [r1, r2, r3, r4, r5, _, r7, r8, r9] =>
      r1.val ≠ -1 ∧ r2.val ≠ -1 ∧ r3.val = 0 ∧ r4.val ≠ -1 ∧ r5.val = 0 ∧
      r7.val ≠ 0 ∧ r7.errno = EINPROGRESS ∧ r8.val ≠ -1 ∧ r8.val ≠ 0 ∧
      r9.val = 0 ∧ r9.optval = 0
  | _ => False

/-- The exits of the connection phase. -/
def Exit.setup : Exit → Prop
  | .socket | .fcntl_getfl _ | .fcntl_setfl _ | .connect | .select_connect | .timeout
  | .getsockopt | .so_error => True
  | _ => False

/-- The answers with which the connection phase fails through `e`: the first
one is that of `socket`; it is -1 exactly for the exit `socket`, which is taken
at once. -/
def Failed (e : Exit) (rs : List Ret) : Prop :=
  e.setup ∧ ∃ r1 tl, rs = r1 :: tl ∧ (e = .socket ↔ r1.val = -1) ∧ (e = .socket → tl = [])

/-- The world in which a piece of code ends. -/
def Flow.world {α : Type} : Flow α → World
  | .next _ w => w
  | .leave _ _ w => w
  | .halt _ w => w

/-- The trace only grows. -/
def Grows {α : Type} (w : World) (f : Flow α) : Prop := w.trace <+: f.world.trace

/-- The entries appended by the labels `_return` and `_return_nosocket`. -/
def cleanup_trace (e : Exit) : List Entry :=
  (if e = .socket then [] else [⟨.close .remote, none⟩]) ++
    [⟨.close .client, none⟩, ⟨.free_args, none⟩]

/-- What the trace looks like when the model stops for want of an answer. -/
def Tail (t : List Entry) : Prop :=
  QuietAll t ∨ ∃ p src r, t = p ++ [⟨.recv src JAP_BUFFER_SIZE, some r⟩] ∧ r.val = 0 ∧ QuietAll p

/-- The summary of a run of `proxy_thread`. -/
structure RunOk (args : ProxyThreadArgs) (script : List Ret) (R : Run) : Prop where
  ok : TraceOk R.world.trace
  halted : ∀ h, R.status = .halted h → h = .blocked ∧ R.world.script = [] ∧ Tail R.world.trace
  returned : ∀ e, R.status = .returned e → ∃ t0, R.world.trace = t0 ++ cleanup_trace e ∧
    ((∃ rs, rs <+: script ∧ t0 = est_trace args rs ∧ Failed e rs ∧ R.locals = none) ∨
     (ExitWhy e t0 ∧ ∃ rs, rs <+: script ∧ Entered rs ∧ est_trace args rs <+: t0))

/-- A script in which the client's 3 bytes are sent in two pieces: the first
`send` takes 2 bytes, the second would block. -/
def demo_split : List Ret :=
  demo_connect ++ [.fail EAGAIN, .bytes [1, 2, 3], .ready ⟨false, false⟩ ⟨true, false⟩,
    .ok 2, .fail EAGAIN]

/-- The locals at the head of iteration 1 of the run on `demo_split`. -/
def demo_split_locals : Locals :=
  ⟨⟨[], 0, none, 0⟩, ⟨[1, 2, 3], 3, some 2, 0⟩⟩

/-- The world at the head of iteration 1 of the run on `demo_split`. -/
def demo_split_world : World :=
  ⟨[], est_trace demo_args demo_connect ++
    [⟨.recv .remote JAP_BUFFER_SIZE, some (.fail EAGAIN)⟩,
     ⟨.recv .client JAP_BUFFER_SIZE, some (.bytes [1, 2, 3])⟩,
     ⟨.select ⟨true, false⟩ ⟨true, false⟩ none none,
       some (.ready ⟨false, false⟩ ⟨true, false⟩)⟩,
     ⟨.send .remote 0 3 [1, 2, 3], some (.ok 2)⟩,
     ⟨.send .remote 2 1 [3], some (.fail EAGAIN)⟩]⟩

/-- A `recv` that returned 0: end-of-stream. -/
def IsEof (e : Entry) : Prop :=
  match e.call, e.ans with
  | .recv _ _, some r => r.val = 0
  | _, _ => False

/-- A script in which the client sends 3 bytes, they are all passed on, and
the client then closes its write side. -/
def demo_half_close : List Ret :=
  demo_connect ++ [.fail EAGAIN, .bytes [1, 2, 3], .ready ⟨false, false⟩ ⟨true, false⟩,
    .ok 3, .fail EAGAIN, .ok 0, .ok 0]

/-- The trace of the run on `demo_half_close` up to the `recv` that returns 0. -/
def demo_half_close_pre : List Entry :=
  est_trace demo_args demo_connect ++
    [⟨.recv .remote JAP_BUFFER_SIZE, some (.fail EAGAIN)⟩,
     ⟨.recv .client JAP_BUFFER_SIZE, some (.bytes [1, 2, 3])⟩,
     ⟨.select ⟨true, false⟩ ⟨true, false⟩ none none,
       some (.ready ⟨false, false⟩ ⟨true, false⟩)⟩,
     ⟨.send .remote 0 3 [1, 2, 3], some (.ok 3)⟩,
     ⟨.recv .remote JAP_BUFFER_SIZE, some (.fail EAGAIN)⟩]

/-- A script in which `connect` is in progress and the wait times out. -/
def demo_timeout : List Ret :=
  [.ok 5, .ok 2, .ok 0, .ok 2, .ok 0, .ok 0, .fail EINPROGRESS, .ok 0]

/-- Neither a `close` nor a `free`. -/
def NoClose (e : Entry) : Prop := (∀ s, e.call ≠ .close s) ∧ e.call ≠ .free_args

/-- The shape of the trace of a run that returned, from the answer `r` of
`socket`: the calls `body` of the function's body, which contain no `close` and
no `free`, then the labels. -/
structure Released (r : Ret) (t : List Entry) : Prop where
  shape : ∃ body, t = ⟨.socket, some r⟩ :: body ++
      (if r.val = -1 then [] else [⟨.close .remote, none⟩]) ++
      [⟨.close .client, none⟩, ⟨.free_args, none⟩] ∧
    (∀ x ∈ body, NoClose x) ∧ (r.val = -1 → body = [])
  client_once : closes .client t = 1
  args_once : frees t = 1
  remote_once : closes .remote t = if r.val = -1 then 0 else 1

/-- A script in which the client's 3 bytes are read, the `send` to the remote
would block, and the remote then closes its write side. No call fails with
anything but `EAGAIN`. -/
def demo_trailing : List Ret :=
  demo_connect ++ [.fail EAGAIN, .bytes [1, 2, 3], .ready ⟨false, false⟩ ⟨true, false⟩,
    .fail EAGAIN, .ok 0, .ok 0]

/-- The state before the read attempts of iteration 0 of the run on `demo_split`. -/
def demo_read_start : World := ⟨demo_split.drop 7, est_trace demo_args demo_connect⟩

/-- The locals after the read attempts of iteration 0 of the run on
`demo_split`: the remote would block, the client delivered 3 bytes. -/
def demo_read_locals : Locals := ⟨⟨[], 0, none, 0⟩, ⟨[1, 2, 3], 3, some 0, 0⟩⟩

/-- The descriptor sets after these read attempts. -/
def demo_read_fds : Fds := ⟨⟨true, false⟩, ⟨true, false⟩⟩

/-- The world after these read attempts. -/
def demo_read_world : World :=
  ⟨demo_split.drop 9, est_trace demo_args demo_connect ++
    [⟨.recv .remote JAP_BUFFER_SIZE, some (.fail EAGAIN)⟩,
     ⟨.recv .client JAP_BUFFER_SIZE, some (.bytes [1, 2, 3])⟩]⟩

/-- A configuration without restriction. -/
def demo_cfg : Config := ⟨0, ⟨0, 0⟩, ⟨80, 1⟩⟩

/-- A configuration that serves the address 7 only. -/
def demo_cfg_restricted : Config := ⟨1, ⟨0, 7⟩, ⟨80, 1⟩⟩

/-- A connection from address 7, accepted as descriptor 4, for which
`pthread_create` fails with `EAGAIN`. -/
def demo_refused : Accept := ⟨4, ⟨5555, 7⟩, 0, 11⟩

/-- A connection from address 9, accepted as descriptor 4. -/
def demo_stranger : Accept := ⟨4, ⟨5555, 9⟩, 0, 0⟩

/-! ## Lemmas on the copy loop and the run -/

/-! ### Lists and traces -/

theorem rx_append (s : Sock) (a b : List Entry) : rx s (a ++ b) = rx s a ++ rx s b := by
  induction a with
  | nil => simp [rx]
  | cons e a ih => simp [rx, ih]

theorem tx_append (s : Sock) (a b : List Entry) : tx s (a ++ b) = tx s a ++ tx s b := by
  induction a with
  | nil => simp [tx]
  | cons e a ih => simp [tx, ih]

theorem rx_snoc (s : Sock) (a : List Entry) (e : Entry) : rx s (a ++ [e]) = rx s a ++ recvd s e := by
  simp [rx_append, rx]

theorem tx_snoc (s : Sock) (a : List Entry) (e : Entry) :
    tx s (a ++ [e]) = tx s a ++ accepted s e := by
  simp [tx_append, tx]

theorem ConfAll.unsnoc {t : List Entry} {e : Entry} (h : ConfAll (t ++ [e])) : ConfAll t ∧ Conf e := by
  constructor
  · intro x hx
    exact h x (List.mem_append_left _ hx)
  · exact h e (by simp)

theorem ConfAll.left {a b : List Entry} (h : ConfAll (a ++ b)) : ConfAll a :=
  fun x hx => h x (List.mem_append_left _ hx)

theorem QuietAll.push {t : List Entry} {e : Entry} (h : QuietAll t) (he : Quiet e) :
    QuietAll (t ++ [e]) := by
  intro x hx
  rcases List.mem_append.1 hx with hx | hx
  · exact h x hx
  · simp at hx
    subst hx
    exact he

theorem TraceOk.nil : TraceOk [] := by
  intro pre e post h
  simp at h

theorem TraceOk.snoc {t : List Entry} {e : Entry} (h : TraceOk t)
    (he : ConfAll t → EntryOk t e) : TraceOk (t ++ [e]) := by
  intro pre x post hsplit hconf
  rcases List.eq_nil_or_concat post with hp | ⟨post1, y, hp⟩
  · subst hp
    have h1 : t ++ [e] = pre ++ [x] := hsplit
    have h2 := List.append_inj_left' h1 rfl
    have h3 := List.append_inj_right' h1 rfl
    simp at h3
    subst h2
    subst h3
    exact he hconf
  · subst hp
    have h1 : t ++ [e] = (pre ++ x :: post1) ++ [y] := by simpa using hsplit
    have h2 := List.append_inj_left' h1 rfl
    exact h pre x post1 h2 hconf

theorem region_split (buf : List Byte) (st n k : Int) (hst : 0 ≤ st) (hk : 0 ≤ k) (hkn : k ≤ n) :
    (region buf st n).take k.toNat ++ region buf (st + k) (n - k) = region buf st n := by
  unfold region
  have e1 : (st + k).toNat = st.toNat + k.toNat := by omega
  have e2 : n.toNat = k.toNat + (n - k).toNat := by omega
  have e3 : min k.toNat n.toNat = k.toNat := by omega
  rw [e1, ← List.drop_drop, List.take_take, e3]
  conv_rhs => rw [e2, List.take_add]

theorem region_length (buf : List Byte) (st n : Int) (hst : 0 ≤ st) (hn : 0 ≤ n)
    (h : st + n ≤ buf.length) : ((region buf st n).length : Int) = n := by
  unfold region
  simp
  omega

theorem region_store (data buf : List Byte) :
    region (store data buf) 0 ((data.length : Int) - 0) = data := by
  unfold region store
  simp

theorem store_length (data buf : List Byte) :
    (store data buf).length = max data.length buf.length := by
  unfold store
  simp
  omega

theorem sys_none {c : Call} {w : World} (h : sys c w = none) : w.script = [] := by
  unfold sys at h
  split at h <;> simp_all

theorem sys_some {c : Call} {w w1 : World} {r : Ret} (h : sys c w = some (r, w1)) :
    w.script = r :: w1.script ∧ w1.trace = w.trace ++ [⟨c, some r⟩] := by
  unfold sys at h
  split at h
  · simp at h
  · simp at h
    obtain ⟨h1, h2⟩ := h
    subst h1 h2
    simp_all

/-! ### The read attempt -/

theorem FD_ISSET_SET_same (s : Sock) (f : FdSet) : FD_ISSET s (FD_SET s f) = true := by
  cases s <;> rfl

theorem FD_ISSET_SET_peer (s : Sock) (f : FdSet) : FD_ISSET s.peer (FD_SET s f) = FD_ISSET s.peer f := by
  cases s <;> rfl

theorem FD_ISSET_SET_peer2 (s : Sock) (f : FdSet) : FD_ISSET s (FD_SET s.peer f) = FD_ISSET s f := by
  cases s <;> rfl

theorem peer_ne (s : Sock) : s.peer ≠ s := by
  cases s <;> simp [Sock.peer]

theorem peer_peer (s : Sock) : s.peer.peer = s := by
  cases s <;> rfl

theorem recvd_recv_other (src : Sock) (n : Nat) (r : Ret) :
    recvd src.peer ⟨.recv src n, some r⟩ = [] := by
  cases src <;> simp [recvd, Sock.peer]

theorem accepted_recv (s src : Sock) (n : Nat) (a : Option Ret) :
    accepted s ⟨.recv src n, a⟩ = [] := by
  simp [accepted]

theorem recv_phase_spec (src : Sock) (d : Dir) (fds : Fds) (w : World)
    (hu : DirU d) (hq : QuietAll w.trace) (ht : TraceOk w.trace)
    (hd : ConfAll w.trace → DirOk src d w.trace) :
    (recv_phase src d fds w).sat
      (fun a w1 => RecvNext src d fds w a.1 a.2 w1)
      (fun e _ w1 => TraceOk w1.trace ∧ ExitWhy e w1.trace ∧
        (e = .recv src ∨ e = .eof src ∨ e = .shutdown src))
      (fun h w1 => HaltOk h w1) := by
  have hsd := hu.shut
  simp only [recv_phase, call]
  by_cases hlen : d.len = 0
  · simp only [hlen, hsd, and_self, if_true]
    cases hs : sys (.recv src JAP_BUFFER_SIZE) w with
    | none =>
      exact ⟨rfl, sys_none hs, ht, Or.inl hq⟩
    | some p =>
      obtain ⟨r, w1⟩ := p
      obtain ⟨hscr, htr⟩ := sys_some hs
      have hok1 : TraceOk w1.trace := by
        rw [htr]
        refine ht.snoc (fun hc => ?_)
        exact ⟨rfl, (hd hc).flushed hlen⟩
      by_cases h0 : r.val = 0
      · simp only [h0, if_true]
        cases hs2 : sys (.shutdown_wr src.peer) w1 with
        | none =>
          exact ⟨rfl, sys_none hs2, hok1, Or.inr ⟨w.trace, src, r, htr, h0, hq⟩⟩
        | some p2 =>
          obtain ⟨r2, w2⟩ := p2
          obtain ⟨_, htr2⟩ := sys_some hs2
          have hok2 : TraceOk w2.trace := by
            rw [htr2]
            exact hok1.snoc (fun _ => trivial)
          have hshape : w2.trace = w.trace ++ [⟨.recv src JAP_BUFFER_SIZE, some r⟩,
              ⟨.shutdown_wr src.peer, some r2⟩] := by
            rw [htr2, htr]; simp
          by_cases h2 : r2.val = 0
          · simp only [h2, ne_eq, not_true_eq_false, if_false]
            exact ⟨hok2, ⟨w.trace, r, r2, hshape, h0, h2, hq⟩, Or.inr (Or.inl rfl)⟩
          · simp only [h2, ne_eq, not_false_eq_true, if_true]
            exact ⟨hok2, ⟨w.trace, r, r2, hshape, h0, h2, hq⟩, Or.inr (Or.inr rfl)⟩
      · simp only [h0, if_false]
        have hq1 : QuietAll w1.trace := by
          rw [htr]
          exact hq.push h0
        have hconf : ConfAll w1.trace → ConfAll w.trace := by
          rw [htr]; exact fun h => h.left
        have htx : ∀ s, tx s w1.trace = tx s w.trace := by
          intro s; rw [htr, tx_snoc, accepted_recv]; simp
        have hrx : rx src.peer w1.trace = rx src.peer w.trace := by
          rw [htr, rx_snoc, recvd_recv_other]; simp
        have hlen1 : w1.script.length ≤ w.script.length := by
          rw [hscr]; simp
        by_cases hm : r.val = -1
        · simp only [hm, if_true]
          by_cases he : r.errno = EAGAIN
          · simp only [he, ne_eq, not_true_eq_false, if_false]
            refine ⟨hu, hq1, hok1, ?_, hconf, htx, hrx, hlen1, ?_, ?_, ?_, ?_⟩
            · intro hc
              have hD := hd (hconf hc)
              have hrx1 : rx src w1.trace = rx src w.trace := by
                rw [htr, rx_snoc]
                simp [recvd, hm]
              refine ⟨hD.len_nonneg, hD.len_le, hD.buf_le, ?_, ?_⟩
              · intro hl; rw [htx, hrx1]; exact hD.flushed hl
              · intro hl; exact absurd hlen hl
            · intro _; simp [FD_ISSET_SET_same, hlen]
            · intro hb; simp [hb, hlen]
            · simp [FD_ISSET_SET_peer]
            · rfl
          · simp only [he, ne_eq, not_false_eq_true, if_true]
            exact ⟨hok1, ⟨w.trace, r, htr, hm, he, hq⟩, Or.inl rfl⟩
        · simp only [hm, if_false]
          refine ⟨⟨rfl, fun _ => by simp⟩, hq1, hok1, ?_, hconf, htx, hrx, hlen1, ?_, ?_, ?_, ?_⟩
          · intro hc
            have hD := hd (hconf hc)
            have hce : Conf ⟨.recv src JAP_BUFFER_SIZE, some r⟩ := by
              rw [htr] at hc; exact hc.unsnoc.2
            simp only [Conf] at hce
            rcases hce with hce | hce | ⟨hpos, hle, hdl⟩
            · exact absurd hce hm
            · exact absurd hce h0
            · have hrx1 : rx src w1.trace = rx src w.trace ++ r.data := by
                rw [htr, rx_snoc]
                have : 0 < r.val := by omega
                simp [recvd, this]
              refine ⟨by simp; omega, by simpa using hle, ?_, ?_, ?_⟩
              · simp only [store_length]
                have := hD.buf_le
                have h3 : r.data.length ≤ JAP_BUFFER_SIZE := by omega
                omega
              · intro hl; simp at hl; omega
              · intro _
                refine ⟨0, rfl, le_refl _, by simp; omega, ?_, ?_⟩
                · simp only [store_length]; omega
                · simp only
                  rw [htx, hrx1, ← hdl, region_store, hD.flushed hlen]
          · intro hb; simp [FD_ISSET_SET_peer2, hb, h0]
          · intro _; simp [FD_ISSET_SET_same, h0]
          · rfl
          · simp [FD_ISSET_SET_peer2]
  · have hc : ¬ (d.len = 0 ∧ d.shutdown = 0) := fun h => hlen h.1
    simp only [hc, if_false]
    refine ⟨hu, hq, ht, hd, id, fun _ => rfl, rfl, le_refl _, ?_, ?_, ?_, ?_⟩
    · intro hb; simp [hb, hlen]
    · intro _; simp [FD_ISSET_SET_same, hlen]
    · rfl
    · simp [FD_ISSET_SET_peer2]

/-! ### The send loop and the send block -/

theorem recvd_send (s dst : Sock) (off len : Int) (bytes : List Byte) (a : Option Ret) :
    recvd s ⟨.send dst off len bytes, a⟩ = [] := by
  simp [recvd]

theorem accepted_send_other (dst : Sock) (off len : Int) (bytes : List Byte) (r : Ret) :
    accepted dst.peer ⟨.send dst off len bytes, some r⟩ = [] := by
  cases dst <;> simp [accepted, Sock.peer]

theorem send_loop_spec (dst : Sock) (tosend : Int) (fuel : Nat) :
    ∀ (d : Dir) (st : Int) (w : World), tosend = d.len → d.start = some st →
    QuietAll w.trace → TraceOk w.trace → (ConfAll w.trace → SendInv dst d st w.trace) →
    w.script.length < fuel →
    (send_loop dst tosend fuel d st w).sat
      (fun a w1 => SendNext dst d w a.1 a.2 w1)
      (fun e _ w1 => TraceOk w1.trace ∧ ExitWhy e w1.trace ∧ e = .send dst)
      (fun h w1 => HaltOk h w1) := by
  induction fuel with
  | zero => intro d st w _ _ _ _ _ hf; omega
  | succ fuel ih =>
    intro d st w hto hst hq ht hinv hf
    simp only [send_loop, call]
    by_cases hlt : st < tosend
    · simp only [hlt, if_true]
      cases hs : sys (.send dst st (d.len - st) (region d.buf st (d.len - st))) w with
      | none => exact ⟨rfl, sys_none hs, ht, Or.inl hq⟩
      | some p =>
        obtain ⟨r, w1⟩ := p
        obtain ⟨hscr, htr⟩ := sys_some hs
        have hok1 : TraceOk w1.trace := by
          rw [htr]
          refine ht.snoc (fun hc => ?_)
          have hI := hinv hc
          refine ⟨hI.st_nonneg, by omega, ?_, ?_, hI.rest⟩
          · have := hI.len_le; omega
          · exact region_length _ _ _ hI.st_nonneg (by omega) (by have := hI.len_buf; omega)
        have hq1 : QuietAll w1.trace := by
          rw [htr]; exact hq.push trivial
        have hconf : ConfAll w1.trace → ConfAll w.trace := by
          rw [htr]; exact fun h => h.left
        have hrx : ∀ s, rx s w1.trace = rx s w.trace := by
          intro s; rw [htr, rx_snoc, recvd_send]; simp
        have htx : tx dst.peer w1.trace = tx dst.peer w.trace := by
          rw [htr, tx_snoc, accepted_send_other]; simp
        have hlen1 : w1.script.length < fuel := by
          rw [hscr] at hf; simp at hf; omega
        have hlen2 : w1.script.length ≤ w.script.length := by
          rw [hscr]; simp
        by_cases hm : r.val = -1
        · simp only [hm, if_true]
          by_cases he : r.errno = EAGAIN
          · simp only [he, ne_eq, not_true_eq_false, if_false]
            refine ⟨rfl, rfl, rfl, hst, hq1, hok1, ?_, hconf, hrx, htx, hlen2⟩
            intro hc
            have hI := hinv (hconf hc)
            refine ⟨hI.st_nonneg, hI.st_le, hI.len_le, hI.len_buf, hI.buf_le, ?_⟩
            rw [hrx, htr, tx_snoc]
            simp only [accepted, hm]
            simpa using hI.rest
          · simp only [he, ne_eq, not_false_eq_true, if_true]
            exact ⟨hok1, ⟨w.trace, st, d.len - st, _, r, htr, hm, he, hq⟩, rfl⟩
        · simp only [hm, if_false]
          have hstep := ih { d with start := d.start.map (· + r.val) } (st + r.val) w1
            hto (by simp [hst]) hq1 hok1 ?_ hlen1
          · revert hstep
            cases send_loop dst tosend fuel { d with start := d.start.map (· + r.val) }
              (st + r.val) w1 with
            | next a w2 =>
              intro hstep
              exact ⟨hstep.buf_eq, hstep.len_eq, hstep.shut_eq, hstep.start_eq, hstep.quiet,
                hstep.ok, hstep.inv, fun h => hconf (hstep.conf h),
                fun s => (hstep.rx_eq s).trans (hrx s), hstep.tx_eq.trans htx,
                le_trans hstep.script hlen2⟩
            | leave e a w2 => exact id
            | halt h w2 => exact id
          · intro hc
            have hI := hinv (hconf hc)
            have hce : Conf ⟨.send dst st (d.len - st) (region d.buf st (d.len - st)), some r⟩ := by
              rw [htr] at hc; exact hc.unsnoc.2
            simp only [Conf] at hce
            rcases hce with hce | ⟨hpos, hle⟩
            · exact absurd hce hm
            · have h0 := hI.st_nonneg
              refine ⟨by omega, by simp only; omega, hI.len_le, hI.len_buf, hI.buf_le, ?_⟩
              simp only
              rw [hrx, htr, tx_snoc]
              have hp : 0 < r.val := by omega
              simp only [accepted, hp, and_self, if_true, List.append_assoc]
              have e1 : d.len - (st + r.val) = d.len - st - r.val := by ring
              rw [e1, region_split d.buf st (d.len - st) r.val hI.st_nonneg (by omega) hle]
              exact hI.rest
    · simp only [hlt, if_false]
      exact ⟨rfl, rfl, rfl, hst, hq, ht, hinv, id, fun _ => rfl, rfl, le_refl _⟩

theorem region_zero (buf : List Byte) (st : Int) : region buf st 0 = [] := by
  simp [region]

theorem send_phase_spec (dst : Sock) (d : Dir) (fds : Fds) (w : World)
    (hu : DirU d) (hq : QuietAll w.trace) (ht : TraceOk w.trace)
    (hd : ConfAll w.trace → DirOk dst.peer d w.trace)
    (hbit : FD_ISSET dst fds.wfds = true → d.len ≠ 0) :
    (send_phase dst d fds w).sat
      (fun d1 w1 => SendDone dst w d1 w1)
      (fun e _ w1 => TraceOk w1.trace ∧ ExitWhy e w1.trace ∧ e = .send dst)
      (fun h w1 => HaltOk h w1) := by
  unfold send_phase
  by_cases hb : FD_ISSET dst fds.wfds = true
  · simp only [hb, if_true]
    have hlen := hbit hb
    obtain ⟨st, hst⟩ : ∃ st, d.start = some st := by
      have := hu.init hlen
      cases h : d.start with
      | none => exact absurd h this
      | some st => exact ⟨st, rfl⟩
    simp only [hst]
    have hloop := send_loop_spec dst d.len (w.script.length + 1) d st w rfl hst hq ht
      (fun hc => by
        have hD := hd hc
        obtain ⟨st1, h1, h2, h3, h4, h5⟩ := hD.pending hlen
        rw [hst] at h1
        cases h1
        rw [peer_peer] at h5
        exact ⟨h2, le_of_lt h3, hD.len_le, h4, hD.buf_le, h5⟩) (Nat.lt_succ_self _)
    revert hloop
    cases send_loop dst d.len (w.script.length + 1) d st w with
    | halt h w1 => exact id
    | leave e a w1 => exact id
    | next a w1 =>
      obtain ⟨d1, st1⟩ := a
      intro hn
      simp only [Flow.sat] at hn
      by_cases hge : st1 ≥ d.len
      · simp only [hge, if_true]
        refine ⟨⟨hn.shut_eq.trans hu.shut, fun h => absurd rfl h⟩, hn.quiet, hn.ok, ?_, hn.conf,
          hn.rx_eq, hn.tx_eq, hn.script⟩
        intro hc
        have hI := hn.inv hc
        refine ⟨le_refl _, by simp, hI.buf_le, fun _ => ?_, fun h => absurd rfl h⟩
        have hr := hI.rest
        have e1 : d1.len - st1 = 0 := by
          have := hI.st_le
          have := hn.len_eq
          omega
        rw [e1, region_zero] at hr
        rw [peer_peer]
        simpa using hr
      · simp only [hge, if_false]
        refine ⟨⟨hn.shut_eq.trans hu.shut, fun _ => by simp [hn.start_eq]⟩, hn.quiet, hn.ok, ?_,
          hn.conf, hn.rx_eq, hn.tx_eq, hn.script⟩
        intro hc
        have hI := hn.inv hc
        have hl := hn.len_eq
        refine ⟨by have := hI.st_nonneg; have := hI.st_le; omega, hI.len_le, hI.buf_le,
          fun h => ?_, fun _ => ⟨st1, hn.start_eq, hI.st_nonneg, by omega, hI.len_buf, ?_⟩⟩
        · exfalso; rw [hl] at h; exact hlen h
        · rw [peer_peer]; exact hI.rest
  · simp only [hb, if_false]
    exact ⟨hu, hq, ht, hd, id, fun _ => rfl, rfl, le_refl _⟩

/-! ### One iteration, and the loop -/

theorem DirOk.congr {src : Sock} {d : Dir} {t t1 : List Entry} (h : DirOk src d t)
    (htx : tx src.peer t1 = tx src.peer t) (hrx : rx src t1 = rx src t) : DirOk src d t1 := by
  refine ⟨h.len_nonneg, h.len_le, h.buf_le, ?_, ?_⟩
  · intro hl; rw [htx, hrx]; exact h.flushed hl
  · intro hl; rw [htx, hrx]; exact h.pending hl

theorem DirOk.flushed_iff {src : Sock} {d : Dir} {t : List Entry} (h : DirOk src d t) :
    d.len = 0 ↔ tx src.peer t = rx src t := by
  constructor
  · exact h.flushed
  · intro heq
    by_contra hl
    obtain ⟨st, _, h2, h3, h4, h5⟩ := h.pending hl
    rw [heq] at h5
    have h6 : region d.buf st (d.len - st) = [] := by simpa using h5
    have h7 := region_length d.buf st (d.len - st) h2 (by omega) (by omega)
    rw [h6] at h7
    simp at h7
    omega

theorem FD_ISSET_inter {s : Sock} {a b : FdSet} (h : FD_ISSET s (a.inter b) = true) :
    FD_ISSET s a = true := by
  cases s <;> simp_all [FD_ISSET, FdSet.inter]

theorem read_half_spec (l : Locals) (w : World) (hH : Head l w) :
    (read_half l w).sat
      (fun a w1 => Mid a.1 a.2 w1 ∧ (ConfAll w1.trace → ConfAll w.trace) ∧
        w1.script.length ≤ w.script.length)
      (fun e _ w1 => TraceOk w1.trace ∧ ExitWhy e w1.trace)
      (fun h w1 => HaltOk h w1) := by
  unfold read_half
  have hbr : ¬ (l.remote.len = 0 ∧ l.client.len = 0 ∧ l.remote.shutdown = 1 ∧
      l.client.shutdown = 1) := by
    intro h
    have := hH.uR.shut
    omega
  simp only [hbr, if_false]
  have h1 := recv_phase_spec .remote l.remote ⟨FD_ZERO, FD_ZERO⟩ w hH.uR hH.quiet hH.ok hH.dirR
  revert h1
  cases recv_phase .remote l.remote ⟨FD_ZERO, FD_ZERO⟩ w with
  | halt h w1 => exact id
  | leave e a w1 => exact fun h => ⟨h.1, h.2.1⟩
  | next a w1 =>
    obtain ⟨d1, fds1⟩ := a
    intro h1
    simp only [Flow.sat] at h1
    have hdc1 : ConfAll w1.trace → DirOk .client l.client w1.trace := fun hc =>
      (hH.dirC (h1.conf hc)).congr (h1.tx_eq _) h1.rx_eq
    have h2 := recv_phase_spec .client l.client fds1 w1 hH.uC h1.quiet h1.ok hdc1
    revert h2
    simp only
    cases recv_phase .client l.client fds1 w1 with
    | halt h w2 => exact id
    | leave e a w2 => exact fun h => ⟨h.1, h.2.1⟩
    | next a w2 =>
      obtain ⟨d2, fds2⟩ := a
      intro h2
      simp only [Flow.sat] at h2
      have hr1 := h1.rbit rfl
      have hw1 := h1.wbit rfl
      have hk1 : FD_ISSET .client fds1.rfds = false := h1.rkeep
      have hk2 : FD_ISSET .remote fds1.wfds = false := h1.wkeep
      refine ⟨⟨⟨h1.unc, h2.unc, h2.quiet, h2.ok, ?_, h2.dir⟩, ?_, ?_, ?_, ?_⟩,
        fun hc => h1.conf (h2.conf hc), le_trans h2.script h1.script⟩
      · intro hc
        exact (h1.dir (h2.conf hc)).congr (h2.tx_eq _) h2.rx_eq
      · have := h2.rkeep
        simp only [Sock.peer] at this
        rw [this]; exact hr1
      · have := h2.wkeep
        rw [this]; exact hw1
      · exact h2.rbit hk1
      · exact h2.wbit hk2

theorem recvd_select (s : Sock) (a b : FdSet) (c : Option FdSet) (d : Option Nat)
    (r : Option Ret) : recvd s ⟨.select a b c d, r⟩ = [] := by
  simp [recvd]

theorem accepted_select (s : Sock) (a b : FdSet) (c : Option FdSet) (d : Option Nat)
    (r : Option Ret) : accepted s ⟨.select a b c d, r⟩ = [] := by
  simp [accepted]

theorem write_half_spec (l : Locals) (fds : Fds) (w : World) (hM : Mid l fds w) :
    (write_half l fds w).sat
      (fun l1 w1 => Head l1 w1 ∧ (ConfAll w1.trace → ConfAll w.trace) ∧
        w1.script.length < w.script.length)
      (fun e _ w1 => TraceOk w1.trace ∧ ExitWhy e w1.trace)
      (fun h w1 => HaltOk h w1) := by
  simp only [write_half, call]
  cases hs : sys (.select fds.rfds fds.wfds none none) w with
  | none => exact ⟨rfl, sys_none hs, hM.ok, Or.inl hM.quiet⟩
  | some p =>
    obtain ⟨r, w1⟩ := p
    obtain ⟨hscr, htr⟩ := sys_some hs
    have hok1 : TraceOk w1.trace := by
      rw [htr]
      refine hM.ok.snoc (fun hc => ?_)
      have hR := (hM.dirR hc).flushed_iff
      have hC := (hM.dirC hc).flushed_iff
      intro src
      cases src
      · exact ⟨hM.rbitR.trans hR, hM.wbitR.trans (not_congr hR)⟩
      · exact ⟨hM.rbitC.trans hC, hM.wbitC.trans (not_congr hC)⟩
    have hq1 : QuietAll w1.trace := by
      rw [htr]; exact hM.quiet.push trivial
    have hconf1 : ConfAll w1.trace → ConfAll w.trace := by
      rw [htr]; exact fun h => h.left
    have hrx1 : ∀ s, rx s w1.trace = rx s w.trace := by
      intro s; rw [htr, rx_snoc, recvd_select]; simp
    have htx1 : ∀ s, tx s w1.trace = tx s w.trace := by
      intro s; rw [htr, tx_snoc, accepted_select]; simp
    have hlen1 : w1.script.length < w.script.length := by
      rw [hscr]; simp
    by_cases hm : r.val = -1
    · simp only [hm, if_true]
      exact ⟨hok1, ⟨w.trace, _, _, r, htr, hm, hM.quiet⟩⟩
    · simp only [hm, if_false]
      have hdc1 : ConfAll w1.trace → DirOk (Sock.remote).peer l.client w1.trace := fun hc =>
        (hM.dirC (hconf1 hc)).congr (htx1 _) (hrx1 _)
      have h2 := send_phase_spec .remote l.client
        ⟨fds.rfds.inter r.rfds, fds.wfds.inter r.wfds⟩ w1 hM.uC hq1 hok1 hdc1
        (fun hb => hM.wbitC.1 (FD_ISSET_inter hb))
      revert h2
      cases send_phase .remote l.client ⟨fds.rfds.inter r.rfds, fds.wfds.inter r.wfds⟩ w1 with
      | halt h w2 => exact id
      | leave e a w2 => exact fun h => ⟨h.1, h.2.1⟩
      | next d2 w2 =>
        intro h2
        simp only [Flow.sat] at h2
        have hdr2 : ConfAll w2.trace → DirOk (Sock.client).peer l.remote w2.trace := fun hc =>
          ((hM.dirR (hconf1 (h2.conf hc))).congr (htx1 _) (hrx1 _)).congr h2.tx_eq (h2.rx_eq _)
        have h3 := send_phase_spec .client l.remote
          ⟨fds.rfds.inter r.rfds, fds.wfds.inter r.wfds⟩ w2 hM.uR h2.quiet h2.ok hdr2
          (fun hb => hM.wbitR.1 (FD_ISSET_inter hb))
        revert h3
        simp only
        cases send_phase .client l.remote ⟨fds.rfds.inter r.rfds, fds.wfds.inter r.wfds⟩ w2 with
        | halt h w3 => exact id
        | leave e a w3 => exact fun h => ⟨h.1, h.2.1⟩
        | next d3 w3 =>
          intro h3
          simp only [Flow.sat] at h3
          refine ⟨⟨h3.unc, h2.unc, h3.quiet, h3.ok, h3.dir, ?_⟩,
            fun hc => hconf1 (h2.conf (h3.conf hc)),
            lt_of_le_of_lt (le_trans h3.script h2.script) hlen1⟩
          intro hc
          exact (h2.dir (h3.conf hc)).congr h3.tx_eq (h3.rx_eq _)

theorem loop_body_spec (l : Locals) (w : World) (hH : Head l w) :
    (loop_body l w).sat
      (fun l1 w1 => Head l1 w1 ∧ (ConfAll w1.trace → ConfAll w.trace) ∧
        w1.script.length < w.script.length)
      (fun e _ w1 => TraceOk w1.trace ∧ ExitWhy e w1.trace)
      (fun h w1 => HaltOk h w1) := by
  unfold loop_body
  have h1 := read_half_spec l w hH
  revert h1
  cases read_half l w with
  | halt h w1 => exact id
  | leave e a w1 => exact id
  | next a w1 =>
    obtain ⟨l1, fds1⟩ := a
    intro h1
    simp only [Flow.sat] at h1
    have h2 := write_half_spec l1 fds1 w1 h1.1
    revert h2
    simp only
    cases write_half l1 fds1 w1 with
    | halt h w2 => exact id
    | leave e a w2 => exact id
    | next l2 w2 =>
      intro h2
      exact ⟨h2.1, fun hc => h1.2.1 (h2.2.1 hc), lt_of_lt_of_le h2.2.2 h1.2.2⟩

theorem copy_loop_spec (fuel : Nat) : ∀ (l : Locals) (w : World), Head l w →
    w.script.length < fuel →
    (copy_loop fuel l w).sat (fun _ _ => False)
      (fun e _ w1 => TraceOk w1.trace ∧ ExitWhy e w1.trace)
      (fun h w1 => HaltOk h w1) := by
  induction fuel with
  | zero => intro l w _ hf; omega
  | succ fuel ih =>
    intro l w hH hf
    unfold copy_loop
    have h1 := loop_body_spec l w hH
    revert h1
    cases loop_body l w with
    | halt h w1 => exact id
    | leave e a w1 => exact id
    | next l1 w1 =>
      intro h1
      exact ih l1 w1 h1.1 (by have := h1.2.2; omega)

theorem iterate_body_spec (n : Nat) : ∀ (l : Locals) (w : World) (l1 : Locals) (w1 : World),
    Head l w → iterate_body n l w = some (l1, w1) → Head l1 w1 := by
  induction n with
  | zero =>
    intro l w l1 w1 hH h
    simp [iterate_body] at h
    obtain ⟨rfl, rfl⟩ := h
    exact hH
  | succ n ih =>
    intro l w l1 w1 hH h
    unfold iterate_body at h
    have h1 := loop_body_spec l w hH
    revert h h1
    cases loop_body l w with
    | halt h w2 => intro h; simp at h
    | leave e a w2 => intro h; simp at h
    | next l2 w2 =>
      intro h h1
      exact ih l2 w2 l1 w1 h1.1 h

/-! ### The connection phase -/

theorem sat_call {α : Type} {c : Call} {w : World} {k : Ret → World → Flow α}
    {N : α → World → Prop} {L : Exit → α → World → Prop} {H : Halt → World → Prop}
    (hn : w.script = [] → H .blocked w)
    (hs : ∀ r rest, w.script = r :: rest →
      (k r ⟨rest, w.trace ++ [⟨c, some r⟩]⟩).sat N L H) :
    (call c w k).sat N L H := by
  unfold call sys
  cases hw : w.script with
  | nil => exact hn hw
  | cons r rest => exact hs r rest hw

theorem establish_spec (args : ProxyThreadArgs) (script : List Ret) :
    (establish args ⟨script, []⟩).sat
      (fun _ w => ∃ rs, script = rs ++ w.script ∧ w.trace = est_trace args rs ∧ Entered rs)
      (fun e _ w => ∃ rs, script = rs ++ w.script ∧ w.trace = est_trace args rs ∧ Failed e rs)
      (fun h w => h = .blocked ∧ w.script = [] ∧ w.trace = est_trace args script ∧
        script.length ≤ 8) := by
  unfold establish
  refine sat_call (fun h => ?_) (fun r1 s1 h1 => ?_)
  · simp only at h; subst h; exact ⟨rfl, rfl, rfl, by simp⟩
  simp only at h1; subst h1
  by_cases c1 : r1.val = -1
  · simp only [c1, if_true]
    exact ⟨[r1], rfl, rfl, trivial, r1, [], rfl, by simp [c1], by simp⟩
  simp only [c1, if_false]
  refine sat_call (fun h => ?_) (fun r2 s2 h2 => ?_)
  · simp only at h; subst h; exact ⟨rfl, rfl, rfl, by simp⟩
  simp only at h2; subst h2
  by_cases c2 : r2.val = -1
  · simp only [c2, if_true]
    exact ⟨[r1, r2], rfl, rfl, trivial, r1, [r2], rfl, by simp [c1], by simp⟩
  simp only [c2, if_false]
  refine sat_call (fun h => ?_) (fun r3 s3 h3 => ?_)
  · simp only at h; subst h; exact ⟨rfl, rfl, rfl, by simp⟩
  simp only at h3; subst h3
  by_cases c3 : r3.val = 0
  swap
  · simp only [c3, ne_eq, not_false_eq_true, if_true]
    exact ⟨[r1, r2, r3], rfl, rfl, trivial, r1, [r2, r3], rfl, by simp [c1], by simp⟩
  simp only [c3, ne_eq, not_true_eq_false, if_false]
  refine sat_call (fun h => ?_) (fun r4 s4 h4 => ?_)
  · simp only at h; subst h; exact ⟨rfl, rfl, rfl, by simp⟩
  simp only at h4; subst h4
  by_cases c4 : r4.val = -1
  · simp only [c4, if_true]
    exact ⟨[r1, r2, r3, r4], rfl, rfl, trivial, r1, [r2, r3, r4], rfl, by simp [c1], by simp⟩
  simp only [c4, if_false]
  refine sat_call (fun h => ?_) (fun r5 s5 h5 => ?_)
  · simp only at h; subst h; exact ⟨rfl, rfl, rfl, by simp⟩
  simp only at h5; subst h5
  by_cases c5 : r5.val = 0
  swap
  · simp only [c5, ne_eq, not_false_eq_true, if_true]
    exact ⟨[r1, r2, r3, r4, r5], rfl, rfl, trivial, r1, [r2, r3, r4, r5], rfl, by simp [c1],
      by simp⟩
  simp only [c5, ne_eq, not_true_eq_false, if_false]
  refine sat_call (fun h => ?_) (fun r6 s6 h6 => ?_)
  · simp only at h; subst h; exact ⟨rfl, rfl, rfl, by simp⟩
  simp only at h6; subst h6
  refine sat_call (fun h => ?_) (fun r7 s7 h7 => ?_)
  · simp only at h; subst h; exact ⟨rfl, rfl, rfl, by simp⟩
  simp only at h7; subst h7
  by_cases c7 : r7.val = 0
  · simp only [c7, ne_eq, not_true_eq_false, false_and, if_false]
    exact ⟨[r1, r2, r3, r4, r5, r6, r7], rfl, rfl, c1, c2, c3, c4, c5, c7⟩
  by_cases c7e : r7.errno = EINPROGRESS
  swap
  · simp only [c7, c7e, ne_eq, not_false_eq_true, and_self, if_true]
    exact ⟨[r1, r2, r3, r4, r5, r6, r7], rfl, rfl, trivial, r1, [r2, r3, r4, r5, r6, r7], rfl,
      by simp [c1], by simp⟩
  simp only [c7, c7e, ne_eq, not_false_eq_true, not_true_eq_false, and_false, if_false, if_true]
  refine sat_call (fun h => ?_) (fun r8 s8 h8 => ?_)
  · simp only at h; subst h; exact ⟨rfl, rfl, rfl, by simp⟩
  simp only at h8; subst h8
  by_cases c8 : r8.val = -1
  · simp only [c8, if_true]
    exact ⟨[r1, r2, r3, r4, r5, r6, r7, r8], rfl, rfl, trivial, r1,
      [r2, r3, r4, r5, r6, r7, r8], rfl, by simp [c1], by simp⟩
  simp only [c8, if_false]
  by_cases c8z : r8.val = 0
  · simp only [c8z, if_true]
    exact ⟨[r1, r2, r3, r4, r5, r6, r7, r8], rfl, rfl, trivial, r1,
      [r2, r3, r4, r5, r6, r7, r8], rfl, by simp [c1], by simp⟩
  simp only [c8z, if_false]
  refine sat_call (fun h => ?_) (fun r9 s9 h9 => ?_)
  · simp only at h; subst h; exact ⟨rfl, rfl, rfl, by simp⟩
  simp only at h9; subst h9
  by_cases c9 : r9.val = 0
  swap
  · simp only [c9, ne_eq, not_false_eq_true, if_true]
    exact ⟨[r1, r2, r3, r4, r5, r6, r7, r8, r9], rfl, rfl, trivial, r1,
      [r2, r3, r4, r5, r6, r7, r8, r9], rfl, by simp [c1], by simp⟩
  simp only [c9, ne_eq, not_true_eq_false, if_false]
  by_cases c9o : r9.optval = 0
  swap
  · simp only [c9o, not_false_eq_true, if_true]
    exact ⟨[r1, r2, r3, r4, r5, r6, r7, r8, r9], rfl, rfl, trivial, r1,
      [r2, r3, r4, r5, r6, r7, r8, r9], rfl, by simp [c1], by simp⟩
  simp only [c9o, not_true_eq_false, if_false]
  exact ⟨[r1, r2, r3, r4, r5, r6, r7, r8, r9], rfl, rfl, c1, c2, c3, c4, c5, c7, c7e, c8, c8z,
    c9, c9o⟩

/-! ### The trace only grows -/

theorem Grows.refl_next {α : Type} (w : World) (a : α) : Grows w (.next a w) :=
  List.prefix_refl _

theorem Grows.refl_leave {α : Type} (w : World) (e : Exit) (a : α) : Grows w (.leave e a w) :=
  List.prefix_refl _

theorem Grows.refl_halt {α : Type} (w : World) (h : Halt) : Grows w (.halt h w : Flow α) :=
  List.prefix_refl _

theorem Grows.of_call {α : Type} {c : Call} {w : World} {k : Ret → World → Flow α}
    (hk : ∀ r w1, Grows w1 (k r w1)) : Grows w (Jap.call c w k) := by
  unfold Jap.call sys
  cases hw : w.script with
  | nil => exact List.prefix_refl _
  | cons r rest =>
    have h := hk r ⟨rest, w.trace ++ [⟨c, some r⟩]⟩
    exact List.IsPrefix.trans (List.prefix_append w.trace [⟨c, some r⟩]) h

theorem Grows.trans {α β : Type} {w w1 : World} {f : Flow α} {g : Flow β}
    (h1 : Grows w f) (hw : f.world = w1) (h2 : Grows w1 g) : Grows w g := by
  unfold Grows at *
  rw [hw] at h1
  exact h1.trans h2

theorem recv_phase_grows (src : Sock) (d : Dir) (fds : Fds) (w : World) :
    Grows w (recv_phase src d fds w) := by
  unfold recv_phase
  split
  · refine Grows.of_call (fun r w1 => ?_)
    split
    · refine Grows.of_call (fun r2 w2 => ?_)
      split <;> exact List.prefix_refl _
    · split
      · split <;> exact List.prefix_refl _
      · exact List.prefix_refl _
  · exact List.prefix_refl _

theorem send_loop_grows (dst : Sock) (tosend : Int) (fuel : Nat) :
    ∀ (d : Dir) (st : Int) (w : World), Grows w (send_loop dst tosend fuel d st w) := by
  induction fuel with
  | zero => intro d st w; exact List.prefix_refl _
  | succ fuel ih =>
    intro d st w
    unfold send_loop
    split
    · refine Grows.of_call (fun r w1 => ?_)
      split
      · split <;> exact List.prefix_refl _
      · exact ih _ _ _
    · exact List.prefix_refl _

theorem send_phase_grows (dst : Sock) (d : Dir) (fds : Fds) (w : World) :
    Grows w (send_phase dst d fds w) := by
  unfold send_phase
  split
  · simp only
    split
    · exact List.prefix_refl _
    · rename_i st hst
      have h := send_loop_grows dst d.len (w.script.length + 1) d st w
      revert h
      cases send_loop dst d.len (w.script.length + 1) d st w with
      | halt h w1 => exact id
      | leave e a w1 => exact id
      | next a w1 =>
        intro h
        simp only
        split <;> exact h
  · exact List.prefix_refl _

theorem read_half_grows (l : Locals) (w : World) : Grows w (read_half l w) := by
  unfold read_half
  simp only
  split
  · exact List.prefix_refl _
  · have h1 := recv_phase_grows .remote l.remote ⟨FD_ZERO, FD_ZERO⟩ w
    revert h1
    cases recv_phase .remote l.remote ⟨FD_ZERO, FD_ZERO⟩ w with
    | halt h w1 => exact id
    | leave e a w1 => exact id
    | next a w1 =>
      intro h1
      simp only
      have h2 := recv_phase_grows .client l.client a.2 w1
      revert h2
      cases recv_phase .client l.client a.2 w1 with
      | halt h w2 => exact fun h2 => List.IsPrefix.trans h1 h2
      | leave e a w2 => exact fun h2 => List.IsPrefix.trans h1 h2
      | next a w2 => exact fun h2 => List.IsPrefix.trans h1 h2

theorem write_half_grows (l : Locals) (fds : Fds) (w : World) :
    Grows w (write_half l fds w) := by
  unfold write_half
  refine Grows.of_call (fun r w1 => ?_)
  split
  · exact List.prefix_refl _
  · simp only
    have h1 := send_phase_grows .remote l.client
      ⟨fds.rfds.inter r.rfds, fds.wfds.inter r.wfds⟩ w1
    revert h1
    cases send_phase .remote l.client ⟨fds.rfds.inter r.rfds, fds.wfds.inter r.wfds⟩ w1 with
    | halt h w2 => exact id
    | leave e a w2 => exact id
    | next a w2 =>
      intro h1
      simp only
      have h2 := send_phase_grows .client l.remote
        ⟨fds.rfds.inter r.rfds, fds.wfds.inter r.wfds⟩ w2
      revert h2
      cases send_phase .client l.remote ⟨fds.rfds.inter r.rfds, fds.wfds.inter r.wfds⟩ w2 with
      | halt h w3 => exact fun h2 => List.IsPrefix.trans h1 h2
      | leave e a w3 => exact fun h2 => List.IsPrefix.trans h1 h2
      | next a w3 => exact fun h2 => List.IsPrefix.trans h1 h2

theorem loop_body_grows (l : Locals) (w : World) : Grows w (loop_body l w) := by
  unfold loop_body
  have h1 := read_half_grows l w
  revert h1
  cases read_half l w with
  | halt h w1 => exact id
  | leave e a w1 => exact id
  | next a w1 =>
    intro h1
    exact List.IsPrefix.trans h1 (write_half_grows a.1 a.2 w1)

theorem copy_loop_grows (fuel : Nat) : ∀ (l : Locals) (w : World),
    Grows w (copy_loop fuel l w) := by
  induction fuel with
  | zero => intro l w; exact List.prefix_refl _
  | succ fuel ih =>
    intro l w
    unfold copy_loop
    have h1 := loop_body_grows l w
    revert h1
    cases loop_body l w with
    | halt h w1 => exact id
    | leave e a w1 => exact id
    | next l1 w1 => exact fun h1 => List.IsPrefix.trans h1 (ih l1 w1)

/-! ### The whole run -/

theorem est_trace_setup (args : ProxyThreadArgs) (rs : List Ret) : SetupAll (est_trace args rs) := by
  have key : ∀ (cs : List Call) (rs : List Ret), (∀ c ∈ cs, ∀ a, Setup ⟨c, a⟩) →
      ∀ e ∈ List.zipWith (fun c r => (⟨c, some r⟩ : Entry)) cs rs, Setup e := by
    intro cs
    induction cs with
    | nil => intro rs _ e he; simp at he
    | cons c cs ih =>
      intro rs hc e he
      cases rs with
      | nil => simp at he
      | cons r rs =>
        simp only [List.zipWith_cons_cons, List.mem_cons] at he
        rcases he with he | he
        · subst he; exact hc c (by simp) _
        · exact ih rs (fun c1 h1 => hc c1 (List.mem_cons_of_mem _ h1)) e he
  refine key (setup_calls args) rs ?_
  intro c hc a
  simp only [setup_calls, List.mem_cons, List.mem_singleton, List.not_mem_nil, or_false] at hc
  rcases hc with h | h | h | h | h | h | h | h | h <;> subst h <;> trivial

theorem Setup.to_quiet {e : Entry} (h : Setup e) : Quiet e := by
  obtain ⟨c, a⟩ := e
  cases c <;> simp_all [Setup, Quiet]

theorem Setup.entryOk {e : Entry} (h : Setup e) (pre : List Entry) : EntryOk pre e := by
  obtain ⟨c, a⟩ := e
  cases c with
  | select a b c d =>
    cases c <;> cases d <;> simp_all [Setup, EntryOk]
  | _ => simp_all [Setup, EntryOk]

theorem Setup.recvd {e : Entry} (h : Setup e) (s : Sock) : recvd s e = [] := by
  obtain ⟨c, a⟩ := e
  cases c <;> simp_all [Setup, Jap.recvd]

theorem Setup.accepted {e : Entry} (h : Setup e) (s : Sock) : accepted s e = [] := by
  obtain ⟨c, a⟩ := e
  cases c <;> simp_all [Setup, Jap.accepted]

theorem SetupAll.quietAll {t : List Entry} (h : SetupAll t) : QuietAll t :=
  fun e he => (h e he).to_quiet

theorem SetupAll.traceOk {t : List Entry} (h : SetupAll t) : TraceOk t := by
  intro pre e post hsplit _
  exact (h e (by rw [hsplit]; simp)).entryOk pre

theorem SetupAll.rx {t : List Entry} (h : SetupAll t) (s : Sock) : rx s t = [] := by
  induction t with
  | nil => rfl
  | cons e t ih =>
    simp only [Jap.rx]
    rw [(h e (by simp)).recvd, ih (fun x hx => h x (List.mem_cons_of_mem _ hx))]
    rfl

theorem SetupAll.tx {t : List Entry} (h : SetupAll t) (s : Sock) : tx s t = [] := by
  induction t with
  | nil => rfl
  | cons e t ih =>
    simp only [Jap.tx]
    rw [(h e (by simp)).accepted, ih (fun x hx => h x (List.mem_cons_of_mem _ hx))]
    rfl

theorem head_init {w : World} (h : SetupAll w.trace) : Head init_locals w := by
  refine ⟨⟨rfl, fun h => absurd rfl h⟩, ⟨rfl, fun h => absurd rfl h⟩, h.quietAll, h.traceOk, ?_, ?_⟩
  · intro _
    refine ⟨le_refl _, by simp [init_locals], by simp [init_locals], fun _ => ?_,
      fun h => absurd rfl h⟩
    rw [h.tx, h.rx]
  · intro _
    refine ⟨le_refl _, by simp [init_locals], by simp [init_locals], fun _ => ?_,
      fun h => absurd rfl h⟩
    rw [h.tx, h.rx]

theorem cleanup_eq (e : Exit) (w : World) :
    (cleanup e w).trace = w.trace ++ cleanup_trace e ∧ (cleanup e w).script = w.script := by
  unfold cleanup cleanup_trace act
  by_cases h : e = .socket <;> simp [h]

theorem TraceOk.cleanup {t : List Entry} (h : TraceOk t) (e : Exit) :
    TraceOk (t ++ cleanup_trace e) := by
  unfold cleanup_trace
  by_cases he : e = .socket
  · simp only [he, if_true, List.nil_append]
    have h1 : t ++ [⟨.close .client, none⟩, ⟨.free_args, none⟩] =
        (t ++ [(⟨.close .client, none⟩ : Entry)]) ++ [⟨.free_args, none⟩] := by simp
    rw [h1]
    refine TraceOk.snoc (TraceOk.snoc h (fun _ => ?_)) (fun _ => ?_) <;> trivial
  · simp only [he, if_false]
    have h1 : t ++ ([⟨.close .remote, none⟩] ++ [⟨.close .client, none⟩, ⟨.free_args, none⟩]) =
        ((t ++ [(⟨.close .remote, none⟩ : Entry)]) ++ [⟨.close .client, none⟩]) ++
          [⟨.free_args, none⟩] := by simp
    rw [h1]
    refine TraceOk.snoc (TraceOk.snoc (TraceOk.snoc h (fun _ => ?_)) (fun _ => ?_))
      (fun _ => ?_) <;> trivial

theorem run_spec (args : ProxyThreadArgs) (script : List Ret) :
    RunOk args script (proxy_thread args script) := by
  unfold proxy_thread
  have h1 := establish_spec args script
  revert h1
  cases establish args ⟨script, []⟩ with
  | halt h w =>
    intro h1
    obtain ⟨h2, h3, h4, _⟩ := h1
    have hs : SetupAll w.trace := by rw [h4]; exact est_trace_setup _ _
    refine ⟨hs.traceOk, ?_, ?_⟩
    · intro h' hh
      simp only [Status.halted.injEq] at hh
      subst hh
      exact ⟨h2, h3, Or.inl hs.quietAll⟩
    · intro e he; simp at he
  | leave e a w =>
    intro h1
    obtain ⟨rs, h2, h3, h4⟩ := h1
    have hs : SetupAll w.trace := by rw [h3]; exact est_trace_setup _ _
    refine ⟨?_, ?_, ?_⟩
    · simp only
      rw [(cleanup_eq e w).1]
      exact hs.traceOk.cleanup e
    · intro h hh; simp at hh
    · intro e' he
      simp only [Status.returned.injEq] at he
      subst he
      exact ⟨w.trace, (cleanup_eq e w).1, Or.inl ⟨rs, ⟨w.script, h2.symm⟩, h3, h4, rfl⟩⟩
  | next a w =>
    intro h1
    obtain ⟨rs, hscr, h3, h4⟩ := h1
    have hs : SetupAll w.trace := by rw [h3]; exact est_trace_setup _ _
    have h2 := copy_loop_spec (w.script.length + 1) init_locals w (head_init hs)
      (Nat.lt_succ_self _)
    have hg := copy_loop_grows (w.script.length + 1) init_locals w
    revert h2 hg
    simp only
    cases copy_loop (w.script.length + 1) init_locals w with
    | next l w1 => intro h2; exact absurd h2 id
    | halt h w1 =>
      intro h2 _
      obtain ⟨h5, h6, h7, h8⟩ := h2
      refine ⟨h7, ?_, ?_⟩
      · intro h' hh
        simp only [Status.halted.injEq] at hh
        subst hh
        exact ⟨h5, h6, h8⟩
      · intro e he; simp at he
    | leave e l w1 =>
      intro h2 hg
      refine ⟨?_, ?_, ?_⟩
      · simp only
        rw [(cleanup_eq e w1).1]
        exact h2.1.cleanup e
      · intro h hh; simp at hh
      · intro e' he
        simp only [Status.returned.injEq] at he
        subst he
        refine ⟨w1.trace, (cleanup_eq e w1).1, Or.inr ⟨h2.2, rs, ⟨w.script, hscr.symm⟩, h4, ?_⟩⟩
        rw [← h3]
        exact hg

/-! ## C1: order and no loss -/

theorem head_at_head {args : ProxyThreadArgs} {script : List Ret} {n : Nat} {l : Locals}
    {w : World} (h : head_at args script n = some (l, w)) : Head l w := by
  unfold head_at at h
  have h1 := establish_spec args script
  revert h h1
  cases establish args ⟨script, []⟩ with
  | halt h w1 => intro h; simp at h
  | leave e a w1 => intro h; simp at h
  | next a w1 =>
    intro h h1
    obtain ⟨rs, _, h3, _⟩ := h1
    exact iterate_body_spec n init_locals w1 l w
      (head_init (by rw [h3]; exact est_trace_setup _ _)) h

theorem iterate_body_script (n : Nat) : ∀ (l : Locals) (w : World) (l1 : Locals) (w1 : World),
    Head l w → iterate_body n l w = some (l1, w1) → w1.script.length + n ≤ w.script.length := by
  induction n with
  | zero =>
    intro l w l1 w1 _ h
    simp [iterate_body] at h
    rw [h.2]
    simp
  | succ n ih =>
    intro l w l1 w1 hH h
    unfold iterate_body at h
    have h1 := loop_body_spec l w hH
    revert h h1
    cases loop_body l w with
    | halt h w2 => intro h; simp at h
    | leave e a w2 => intro h; simp at h
    | next l2 w2 =>
      intro h h1
      have h2 := ih l2 w2 l1 w1 h1.1 h
      have h3 : w2.script.length < w.script.length := h1.2.2
      omega

theorem copy_loop_iterate (n : Nat) : ∀ (fuel : Nat) (l : Locals) (w : World) (l1 : Locals)
    (w1 : World), iterate_body n l w = some (l1, w1) →
    copy_loop (fuel + n) l w = copy_loop fuel l1 w1 := by
  induction n with
  | zero =>
    intro fuel l w l1 w1 h
    simp [iterate_body] at h
    rw [h.1, h.2]
    rfl
  | succ n ih =>
    intro fuel l w l1 w1 h
    unfold iterate_body at h
    have e1 : fuel + (n + 1) = (fuel + n) + 1 := by omega
    rw [e1]
    conv_lhs => unfold copy_loop
    revert h
    cases loop_body l w with
    | halt h w2 => intro h; simp at h
    | leave e a w2 => intro h; simp at h
    | next l2 w2 => intro h; exact ih fuel l2 w2 l1 w1 h

theorem cleanup_grows (e : Exit) (w : World) : w.trace <+: (cleanup e w).trace := by
  rw [(cleanup_eq e w).1]
  exact List.prefix_append _ _

theorem head_at_run {args : ProxyThreadArgs} {script : List Ret} {n : Nat} {l : Locals}
    {w : World} (h : head_at args script n = some (l, w)) :
    w.trace <+: (proxy_thread args script).world.trace := by
  unfold head_at at h
  unfold proxy_thread
  have h1 := establish_spec args script
  revert h h1
  cases establish args ⟨script, []⟩ with
  | halt h w1 => intro h; simp at h
  | leave e a w1 => intro h; simp at h
  | next a w1 =>
    intro h h1
    obtain ⟨rs, _, h3, _⟩ := h1
    have hH : Head init_locals w1 := head_init (by rw [h3]; exact est_trace_setup _ _)
    have hlen := iterate_body_script n init_locals w1 l w hH h
    have hfuel : w1.script.length + 1 = (w1.script.length + 1 - n) + n := by omega
    have hrun := copy_loop_iterate n (w1.script.length + 1 - n) init_locals w1 l w h
    rw [← hfuel] at hrun
    have hg := copy_loop_grows (w1.script.length + 1 - n) l w
    rw [← hrun] at hg
    revert hg
    simp only
    cases copy_loop (w1.script.length + 1) init_locals w1 with
    | halt h w2 => exact id
    | leave e a w2 => exact fun hg => List.IsPrefix.trans hg (cleanup_grows e w2)
    | next a w2 => exact id

theorem DirOk.unsent_eq {src : Sock} {d : Dir} {t : List Entry} (h : DirOk src d t) :
    tx src.peer t ++ unsent d = rx src t := by
  unfold unsent
  by_cases hl : d.len = 0
  · simp only [hl, if_true, List.append_nil]
    exact h.flushed hl
  · simp only [hl, if_false]
    obtain ⟨st, h1, _, _, _, h5⟩ := h.pending hl
    rw [h1]
    exact h5

theorem TraceOk.sent_before_recvd {t : List Entry} (h : TraceOk t) (pre : List Entry) :
    ∀ post, t = pre ++ post → ConfAll pre → ∀ dst, tx dst pre <+: rx dst.peer pre := by
  induction pre using List.reverseRecOn with
  | nil => intro post _ _ dst; exact List.prefix_refl _
  | append_singleton p e ih =>
    intro post ht hc dst
    have ht1 : t = p ++ e :: post := by rw [ht]; simp
    have ihp := ih (e :: post) ht1 hc.left dst
    have hok := h p e post ht1 hc.left
    rw [tx_snoc, rx_snoc]
    obtain ⟨c, a⟩ := e
    cases c with
    | send s off len bytes =>
      cases a with
      | none =>
        simp only [accepted, recvd, List.append_nil]
        exact ihp
      | some r =>
        simp only [accepted, recvd, List.append_nil]
        by_cases hs : s = dst ∧ 0 < r.val
        · simp only [hs, and_self, if_true]
          have h5 : tx s p ++ bytes = rx s.peer p := hok.2.2.2.2
          rw [hs.1] at h5
          rw [← h5]
          exact (List.prefix_append_right_inj _).2 (List.take_prefix _ _)
        · simp only [hs, if_false, List.append_nil]
          exact ihp
    | _ =>
      simp only [accepted, List.append_nil]
      exact ihp.trans (List.prefix_append _ _)

/-- C1 (order and no loss in the copy loop). The state `(l, w)` at the head of
any iteration of the copy loop is one the run of `proxy_thread` passes through
(its trace begins with `w.trace`), and there, in each direction, the bytes handed successfully to `send` on
the destination followed by the unsent region `buf[X_start, X_len)` are exactly
the bytes `recv` returned on the source; and at every moment of the run up to
there, the bytes sent are an initial segment of the bytes received. The kernel
is assumed to keep its contract (`recv` returns -1, 0 or the count of bytes it
stored, at most 15000; `send` returns -1 or a count from 1 to the length asked). -/
theorem order_no_loss (args : ProxyThreadArgs) (script : List Ret) (n : Nat) (l : Locals)
    (w : World) (hh : head_at args script n = some (l, w)) (hc : ConfAll w.trace) :
    w.trace <+: (proxy_thread args script).world.trace ∧
    tx .remote w.trace ++ unsent l.client = rx .client w.trace ∧
    tx .client w.trace ++ unsent l.remote = rx .remote w.trace ∧
    ∀ pre post, w.trace = pre ++ post →
      tx .remote pre <+: rx .client pre ∧ tx .client pre <+: rx .remote pre := by
  have hH := head_at_head hh
  refine ⟨head_at_run hh, (hH.dirC hc).unsent_eq, (hH.dirR hc).unsent_eq, ?_⟩
  intro pre post ht
  have hcp : ConfAll pre := by rw [ht] at hc; exact hc.left
  exact ⟨hH.ok.sent_before_recvd pre post ht hcp .remote,
    hH.ok.sent_before_recvd pre post ht hcp .client⟩

theorem demo_split_head :
    head_at demo_args demo_split 1 = some (demo_split_locals, demo_split_world) := by
  decide

/-- After a `send` that took 2 of the client's 3 bytes and one that would
block, the remote has `[1, 2]` and `[3]` is the unsent region. -/
theorem order_no_loss_witness :
    tx .remote demo_split_world.trace = [1, 2] ∧ unsent demo_split_locals.client = [3] ∧
    rx .client demo_split_world.trace = [1, 2, 3] ∧
    tx .remote demo_split_world.trace ++ unsent demo_split_locals.client =
      rx .client demo_split_world.trace :=
  ⟨by decide, by decide, by decide,
    (order_no_loss demo_args demo_split 1 demo_split_locals demo_split_world
      demo_split_head (by decide)).2.1⟩

/-! ## C2: capacity bound and read gating -/

theorem DirOk.bounds {src : Sock} {d : Dir} {t : List Entry} (h : DirOk src d t) :
    0 ≤ d.len ∧ d.len ≤ JAP_BUFFER_SIZE ∧ d.buf.length ≤ JAP_BUFFER_SIZE ∧
    (unsent d).length ≤ JAP_BUFFER_SIZE ∧
    (0 < d.len → ∃ st, d.start = some st ∧ 0 ≤ st ∧ st ≤ d.len ∧ d.len - st ≤ JAP_BUFFER_SIZE ∧
      d.len ≤ d.buf.length) := by
  refine ⟨h.len_nonneg, h.len_le, h.buf_le, ?_, ?_⟩
  · unfold unsent
    by_cases hl : d.len = 0
    · simp [hl]
    · simp only [hl, if_false]
      obtain ⟨st, h1, h2, h3, h4, _⟩ := h.pending hl
      rw [h1]
      have h5 := region_length d.buf st (d.len - st) h2 (by omega) (by omega)
      have h6 := h.len_le
      simp only
      omega
  · intro hl
    obtain ⟨st, h1, h2, h3, h4, _⟩ := h.pending (by omega)
    have h6 := h.len_le
    exact ⟨st, h1, h2, le_of_lt h3, by omega, h4⟩

/-- C2 (capacity bound and read gating). At the head of every iteration of the
copy loop, provided the kernel kept its contract, each direction has
`0 ≤ X_len ≤ 15000`, at most 15000 bytes stored and unsent, and
`0 ≤ X_start ≤ X_len` whenever `X_len > 0`; every `send` issued so far read a
nonempty region inside the 15000 bytes of its buffer; every `recv` issued so
far asked for 15000 bytes at a moment when all bytes received before on that
socket had been sent on; a read attempt in a state with `X_len ≠ 0` issues
no call at all; and the same bounds hold after the read attempts of the
iteration, at its `select`. -/
theorem capacity_and_read_gating (args : ProxyThreadArgs) (script : List Ret) (n : Nat)
    (l : Locals) (w : World) (hh : head_at args script n = some (l, w))
    (hc : ConfAll w.trace) :
    (∀ d, d = l.remote ∨ d = l.client →
      0 ≤ d.len ∧ d.len ≤ JAP_BUFFER_SIZE ∧ d.buf.length ≤ JAP_BUFFER_SIZE ∧
      (unsent d).length ≤ JAP_BUFFER_SIZE ∧
      (0 < d.len → ∃ st, d.start = some st ∧ 0 ≤ st ∧ st ≤ d.len ∧
        d.len - st ≤ JAP_BUFFER_SIZE ∧ d.len ≤ d.buf.length)) ∧
    (∀ pre dst (off len : Int) bytes a post,
      w.trace = pre ++ ⟨.send dst off len bytes, a⟩ :: post →
      0 ≤ off ∧ 0 < len ∧ off + len ≤ JAP_BUFFER_SIZE ∧ (bytes.length : Int) = len) ∧
    (∀ pre src size a post, w.trace = pre ++ ⟨.recv src size, a⟩ :: post →
      size = JAP_BUFFER_SIZE ∧ tx src.peer pre = rx src pre) ∧
    (∀ src d fds w0, d.len ≠ 0 →
      recv_phase src d fds w0 = .next (d, ⟨fds.rfds, FD_SET src.peer fds.wfds⟩) w0) ∧
    (∀ l2 fds w2, read_half l w = .next (l2, fds) w2 → ConfAll w2.trace →
      ∀ d, d = l2.remote ∨ d = l2.client →
        0 ≤ d.len ∧ d.len ≤ JAP_BUFFER_SIZE ∧ d.buf.length ≤ JAP_BUFFER_SIZE ∧
        (unsent d).length ≤ JAP_BUFFER_SIZE ∧
        (0 < d.len → ∃ st, d.start = some st ∧ 0 ≤ st ∧ st ≤ d.len ∧
          d.len - st ≤ JAP_BUFFER_SIZE ∧ d.len ≤ d.buf.length)) := by
  have hH := head_at_head hh
  refine ⟨?_, ?_, ?_, ?_, ?_⟩
  · intro d hd
    rcases hd with hd | hd <;> subst hd
    · exact (hH.dirR hc).bounds
    · exact (hH.dirC hc).bounds
  · intro pre dst off len bytes a post ht
    have hcp : ConfAll pre := by rw [ht] at hc; exact hc.left
    have h := hH.ok pre _ post ht hcp
    exact ⟨h.1, h.2.1, h.2.2.1, h.2.2.2.1⟩
  · intro pre src size a post ht
    have hcp : ConfAll pre := by rw [ht] at hc; exact hc.left
    exact hH.ok pre _ post ht hcp
  · intro src d fds w0 hl
    simp [recv_phase, hl]
  · intro l2 fds w2 hr hc2 d hd
    have hM0 := read_half_spec l w hH
    rw [hr] at hM0
    rcases hd with hd | hd <;> subst hd
    · exact (hM0.1.dirR hc2).bounds
    · exact (hM0.1.dirC hc2).bounds

/-- With 3 bytes read and 2 of them sent, `client_start = 2 ≤ client_len = 3`. -/
theorem capacity_and_read_gating_witness :
    demo_split_locals.client.start = some 2 ∧ demo_split_locals.client.len = 3 ∧
    0 ≤ demo_split_locals.client.len ∧
    demo_split_locals.client.len ≤ JAP_BUFFER_SIZE :=
  ⟨rfl, rfl,
    ((capacity_and_read_gating demo_args demo_split 1 demo_split_locals demo_split_world
      demo_split_head (by decide)).1 demo_split_locals.client (Or.inr rfl)).1,
    ((capacity_and_read_gating demo_args demo_split 1 demo_split_locals demo_split_world
      demo_split_head (by decide)).1 demo_split_locals.client (Or.inr rfl)).2.1⟩

/-! ## C3: half-close termination -/

theorem Quiet.not_eof {e : Entry} (h : Quiet e) : ¬ IsEof e := by
  obtain ⟨c, a⟩ := e
  cases c <;> cases a <;> simp_all [Quiet, IsEof]

theorem Setup.no_eof {e : Entry} (h : Setup e) : ¬ IsEof e := h.to_quiet.not_eof

theorem cleanup_not_eof (e : Exit) : ∀ x ∈ cleanup_trace e, ¬ IsEof x := by
  intro x hx
  unfold cleanup_trace at hx
  by_cases he : e = .socket
  · simp only [he, if_true, List.nil_append, List.mem_cons, List.mem_singleton,
      List.not_mem_nil, or_false] at hx
    rcases hx with rfl | rfl <;> simp [IsEof]
  · simp only [he, if_false, List.cons_append, List.nil_append, List.mem_cons,
      List.mem_singleton, List.not_mem_nil, or_false] at hx
    rcases hx with rfl | rfl | rfl <;> simp [IsEof]

theorem split_unique {P : Entry → Prop} : ∀ (p pre : List Entry) {e e1 : Entry}
    {post tail : List Entry}, pre ++ e :: post = p ++ e1 :: tail → P e →
    (∀ x ∈ p, ¬ P x) → (∀ x ∈ tail, ¬ P x) → pre = p ∧ e = e1 ∧ post = tail := by
  intro p
  induction p with
  | nil =>
    intro pre e e1 post tail h hP _ ht
    cases pre with
    | nil =>
      simp only [List.nil_append, List.cons.injEq] at h
      exact ⟨rfl, h.1, h.2⟩
    | cons x pre1 =>
      simp only [List.cons_append, List.nil_append, List.cons.injEq] at h
      exact absurd hP (ht e (by rw [← h.2]; simp))
  | cons y p1 ih =>
    intro pre e e1 post tail h hP hp ht
    cases pre with
    | nil =>
      simp only [List.nil_append, List.cons_append, List.cons.injEq] at h
      exact absurd hP (by rw [h.1]; exact hp y (by simp))
    | cons x pre1 =>
      simp only [List.cons_append, List.cons.injEq] at h
      obtain ⟨h1, h2, h3⟩ := ih pre1 h.2 hP (fun z hz => hp z (List.mem_cons_of_mem _ hz)) ht
      exact ⟨by rw [h.1, h1], h2, h3⟩

theorem no_eof_contra {t pre post : List Entry} {e : Entry} (h : ∀ x ∈ t, ¬ IsEof x)
    (ht : t = pre ++ e :: post) (he : IsEof e) : False :=
  h e (by rw [ht]; simp) he

theorem not_eof_append {a b : List Entry} (ha : ∀ x ∈ a, ¬ IsEof x) (hb : ∀ x ∈ b, ¬ IsEof x) :
    ∀ x ∈ a ++ b, ¬ IsEof x := by
  intro x hx
  rcases List.mem_append.1 hx with h | h
  · exact ha x h
  · exact hb x h

theorem QuietAll.all_not_eof {t : List Entry} (h : QuietAll t) : ∀ x ∈ t, ¬ IsEof x :=
  fun x hx => (h x hx).not_eof

/-- C3 (half-close termination). Whenever `recv` on `src` (the client, or
symmetrically the remote) returns 0 in a run of `proxy_thread`, all bytes
received from `src` before have been sent, in order, to the other socket
(the kernel having kept its contract until then); and what the run does after
that `recv` is exactly `shutdown(other socket, SHUT_WR)`, `close(remote_socket)`,
`close(client_socket)`, `free(args)`, after which it has returned. No `recv` or
`send` follows. (The only other possibility in the model is that the script
ends with the answer of that `recv`, `shutdown` still pending.) -/
theorem half_close (args : ProxyThreadArgs) (script : List Ret) (src : Sock)
    (pre post : List Entry) (r : Ret)
    (ht : (proxy_thread args script).world.trace =
      pre ++ ⟨.recv src JAP_BUFFER_SIZE, some r⟩ :: post)
    (h0 : r.val = 0) :
    (ConfAll pre → tx src.peer pre = rx src pre) ∧
    ((post = [] ∧ (proxy_thread args script).status = .halted .blocked ∧
        (proxy_thread args script).world.script = []) ∨
     (∃ r2, post = [⟨.shutdown_wr src.peer, some r2⟩, ⟨.close .remote, none⟩,
          ⟨.close .client, none⟩, ⟨.free_args, none⟩] ∧
        ((r2.val = 0 ∧ (proxy_thread args script).status = .returned (.eof src)) ∨
         (r2.val ≠ 0 ∧ (proxy_thread args script).status = .returned (.shutdown src))))) := by
  have hR := run_spec args script
  have he : IsEof ⟨.recv src JAP_BUFFER_SIZE, some r⟩ := h0
  refine ⟨fun hc => (hR.ok pre _ post ht hc).2, ?_⟩
  cases hst : (proxy_thread args script).status with
  | halted h =>
    obtain ⟨h1, h2, h3⟩ := hR.halted h hst
    subst h1
    rcases h3 with h3 | ⟨p, src1, r1, h4, _, h6⟩
    · exact absurd he (h3 _ (by rw [ht]; simp)).not_eof
    · rw [ht] at h4
      obtain ⟨_, _, h9⟩ := split_unique p pre h4 he h6.all_not_eof (by simp)
      exact Or.inl ⟨h9, rfl, h2⟩
  | returned e =>
    obtain ⟨t0, h1, h2⟩ := hR.returned e hst
    rcases h2 with ⟨rs, _, h3, _, _⟩ | ⟨h3, _⟩
    · exfalso
      refine no_eof_contra (not_eof_append ?_ (cleanup_not_eof e)) (ht.symm.trans h1).symm he
      rw [h3]
      exact fun x hx => (est_trace_setup args rs x hx).no_eof
    · cases e with
      | eof src1 =>
        obtain ⟨p, r1, r2, h4, _, h6, h7⟩ := h3
        have h8 : pre ++ ⟨.recv src JAP_BUFFER_SIZE, some r⟩ :: post =
            p ++ ⟨.recv src1 JAP_BUFFER_SIZE, some r1⟩ ::
              (⟨.shutdown_wr src1.peer, some r2⟩ :: cleanup_trace (.eof src1)) := by
          rw [← ht, h1, h4]; simp
        obtain ⟨_, h10, h11⟩ := split_unique p pre h8 he h7.all_not_eof (by
          intro x hx
          simp only [List.mem_cons] at hx
          rcases hx with hx | hx
          · subst hx; simp [IsEof]
          · exact cleanup_not_eof _ x hx)
        cases h10
        exact Or.inr ⟨r2, by rw [h11]; simp [cleanup_trace], Or.inl ⟨h6, rfl⟩⟩
      | shutdown src1 =>
        obtain ⟨p, r1, r2, h4, _, h6, h7⟩ := h3
        have h8 : pre ++ ⟨.recv src JAP_BUFFER_SIZE, some r⟩ :: post =
            p ++ ⟨.recv src1 JAP_BUFFER_SIZE, some r1⟩ ::
              (⟨.shutdown_wr src1.peer, some r2⟩ :: cleanup_trace (.shutdown src1)) := by
          rw [← ht, h1, h4]; simp
        obtain ⟨_, h10, h11⟩ := split_unique p pre h8 he h7.all_not_eof (by
          intro x hx
          simp only [List.mem_cons] at hx
          rcases hx with hx | hx
          · subst hx; simp [IsEof]
          · exact cleanup_not_eof _ x hx)
        cases h10
        exact Or.inr ⟨r2, by rw [h11]; simp [cleanup_trace], Or.inr ⟨h6, rfl⟩⟩
      | recv src1 =>
        exfalso
        obtain ⟨p, r1, h4, h5, _, h7⟩ := h3
        refine no_eof_contra (not_eof_append ?_ (cleanup_not_eof _)) (ht.symm.trans h1).symm he
        rw [h4]
        refine not_eof_append h7.all_not_eof ?_
        intro x hx
        simp only [List.mem_singleton] at hx
        subst hx
        simp [IsEof, h5]
      | select =>
        exfalso
        obtain ⟨p, rf, wf, r1, h4, _, h7⟩ := h3
        refine no_eof_contra (not_eof_append ?_ (cleanup_not_eof _)) (ht.symm.trans h1).symm he
        rw [h4]
        refine not_eof_append h7.all_not_eof ?_
        intro x hx
        simp only [List.mem_singleton] at hx
        subst hx
        simp [IsEof]
      | send dst =>
        exfalso
        obtain ⟨p, off, len, bytes, r1, h4, _, _, h7⟩ := h3
        refine no_eof_contra (not_eof_append ?_ (cleanup_not_eof _)) (ht.symm.trans h1).symm he
        rw [h4]
        refine not_eof_append h7.all_not_eof ?_
        intro x hx
        simp only [List.mem_singleton] at hx
        subst hx
        simp [IsEof]
      | _ => exact absurd h3 id

/-- The client sends `[1, 2, 3]` and closes: when its `recv` returns 0 the
remote has been sent `[1, 2, 3]`. -/
theorem half_close_witness :
    tx .remote demo_half_close_pre = [1, 2, 3] ∧
    tx .remote demo_half_close_pre = rx .client demo_half_close_pre ∧
    (proxy_thread demo_args demo_half_close).status = .returned (.eof .client) :=
  ⟨by decide,
    (half_close demo_args demo_half_close .client demo_half_close_pre
      [⟨.shutdown_wr .remote, some (.ok 0)⟩, ⟨.close .remote, none⟩, ⟨.close .client, none⟩,
        ⟨.free_args, none⟩] (.ok 0) (by decide) rfl).1 (by decide),
    by decide⟩

/-! ## C5: connect timeout -/

/-- C5 (connect timeout). If `connect` returns nonzero with `EINPROGRESS` and
the `select` that waits for the connection, called with the timeout
`JAP_CONNECTION_TIMEOUT` = 5 seconds, returns 0, then `proxy_thread` returns
through the timeout exit: after that `select` it only calls
`close(remote_socket)`, `close(client_socket)` and `free(args)`; the copy loop
is not entered and no `recv`, `send` or `shutdown` is issued. In general the
connection phase falls through to the copy loop only if `connect` returned 0,
or `connect` was in progress, the wait returned neither -1 nor 0 (hence a
positive count, `select` returning at least -1) and `getsockopt` returned 0
with `SO_ERROR` equal to 0; and a run has entered the copy loop only if its
connection phase fell through. -/
theorem connect_timeout (args : ProxyThreadArgs) :
    (∀ r1 r2 r3 r4 r5 r6 r7 r8 rest, r1.val ≠ -1 → r2.val ≠ -1 → r3.val = 0 → r4.val ≠ -1 →
      r5.val = 0 → r7.val ≠ 0 → r7.errno = EINPROGRESS → r8.val = 0 →
      proxy_thread args (r1 :: r2 :: r3 :: r4 :: r5 :: r6 :: r7 :: r8 :: rest) =
        ⟨.returned .timeout, none, ⟨rest,
          [⟨.socket, some r1⟩, ⟨.fcntl_getfl .remote, some r2⟩, ⟨.fcntl_setfl .remote, some r3⟩,
           ⟨.fcntl_getfl .client, some r4⟩, ⟨.fcntl_setfl .client, some r5⟩,
           ⟨.setsockopt_nodelay .remote, some r6⟩, ⟨.connect args.remote_address, some r7⟩,
           ⟨.select ⟨true, false⟩ ⟨true, false⟩ (some ⟨true, false⟩) (some 5), some r8⟩,
           ⟨.close .remote, none⟩, ⟨.close .client, none⟩, ⟨.free_args, none⟩]⟩⟩) ∧
    (∀ script w, establish args ⟨script, []⟩ = .next () w →
      ∃ r1 r2 r3 r4 r5 r6 r7,
        (script = [r1, r2, r3, r4, r5, r6, r7] ++ w.script ∧
          w.trace = est_trace args [r1, r2, r3, r4, r5, r6, r7] ∧ r7.val = 0) ∨
        (∃ r8 r9, script = [r1, r2, r3, r4, r5, r6, r7, r8, r9] ++ w.script ∧
          w.trace = est_trace args [r1, r2, r3, r4, r5, r6, r7, r8, r9] ∧
          r7.val ≠ 0 ∧ r7.errno = EINPROGRESS ∧ r8.val ≠ -1 ∧ r8.val ≠ 0 ∧
          (-1 ≤ r8.val → 0 < r8.val) ∧ r9.val = 0 ∧ r9.optval = 0)) ∧
    (∀ script, (proxy_thread args script).locals ≠ none →
      ∃ w, establish args ⟨script, []⟩ = .next () w) := by
  refine ⟨?_, ?_, ?_⟩
  · intro r1 r2 r3 r4 r5 r6 r7 r8 rest h1 h2 h3 h4 h5 h7 h7e h8
    simp [proxy_thread, establish, call, sys, cleanup, act, h1, h2, h3, h4, h5, h7, h7e, h8,
      JAP_CONNECTION_TIMEOUT]
  · intro script w h
    have h1 := establish_spec args script
    rw [h] at h1
    obtain ⟨rs, h2, h3, h4⟩ := h1
    unfold Entered at h4
    split at h4
    · rename_i r1 r2 r3 r4 r5 r6 r7
      exact ⟨r1, r2, r3, r4, r5, r6, r7, Or.inl ⟨h2, h3, h4.2.2.2.2.2⟩⟩
    · rename_i r1 r2 r3 r4 r5 r6 r7 r8 r9
      obtain ⟨_, _, _, _, _, c7, c7e, c8, c8z, c9, c9o⟩ := h4
      exact ⟨r1, r2, r3, r4, r5, r6, r7, Or.inr ⟨r8, r9, h2, h3, c7, c7e, c8, c8z,
        fun h => by omega, c9, c9o⟩⟩
    · exact absurd h4 id
  · intro script h
    unfold proxy_thread at h
    revert h
    cases establish args ⟨script, []⟩ with
    | halt h w => intro h; simp at h
    | leave e a w => intro h; simp at h
    | next a w => intro _; exact ⟨w, rfl⟩

/-- The run on `demo_timeout` ends through the timeout exit, with both sockets closed. -/
theorem connect_timeout_witness :
    (proxy_thread demo_args demo_timeout).status = .returned .timeout ∧
    closes .remote (proxy_thread demo_args demo_timeout).world.trace = 1 ∧
    closes .client (proxy_thread demo_args demo_timeout).world.trace = 1 := by
  have h := (connect_timeout demo_args).1 (.ok 5) (.ok 2) (.ok 0) (.ok 2) (.ok 0) (.ok 0)
    (.fail EINPROGRESS) (.ok 0) [] (by decide) (by decide) rfl (by decide) rfl (by decide) rfl rfl
  have h2 : proxy_thread demo_args demo_timeout = _ := h
  rw [h2]
  decide

/-! ## C6: resource release -/

theorem Quiet.noClose {e : Entry} (h : Quiet e) : NoClose e := by
  obtain ⟨c, a⟩ := e
  cases c <;> simp_all [Quiet, NoClose]

theorem ExitWhy.all_noClose {e : Exit} {t : List Entry} (h : ExitWhy e t) : ∀ x ∈ t, NoClose x := by
  have snoc : ∀ (p : List Entry) (y : Entry), QuietAll p → NoClose y →
      ∀ x ∈ p ++ [y], NoClose x := by
    intro p y hp hy x hx
    rcases List.mem_append.1 hx with h1 | h1
    · exact (hp x h1).noClose
    · simp only [List.mem_singleton] at h1
      subst h1
      exact hy
  cases e with
  | recv src =>
    obtain ⟨p, r, h1, _, _, h4⟩ := h
    rw [h1]
    exact snoc p _ h4 (by simp [NoClose])
  | eof src =>
    obtain ⟨p, r, r2, h1, _, _, h4⟩ := h
    intro x hx
    rw [h1] at hx
    simp only [List.mem_append, List.mem_cons, List.mem_singleton, List.not_mem_nil,
      or_false] at hx
    rcases hx with h5 | rfl | rfl
    · exact (h4 x h5).noClose
    · simp [NoClose]
    · simp [NoClose]
  | shutdown src =>
    obtain ⟨p, r, r2, h1, _, _, h4⟩ := h
    intro x hx
    rw [h1] at hx
    simp only [List.mem_append, List.mem_cons, List.mem_singleton, List.not_mem_nil,
      or_false] at hx
    rcases hx with h5 | rfl | rfl
    · exact (h4 x h5).noClose
    · simp [NoClose]
    · simp [NoClose]
  | select =>
    obtain ⟨p, rf, wf, r, h1, _, h4⟩ := h
    rw [h1]
    exact snoc p _ h4 (by simp [NoClose])
  | send dst =>
    obtain ⟨p, off, len, bytes, r, h1, _, _, h4⟩ := h
    rw [h1]
    exact snoc p _ h4 (by simp [NoClose])
  | _ => exact absurd h id

theorem ExitWhy.ne_socket {e : Exit} {t : List Entry} (h : ExitWhy e t) : e ≠ .socket := by
  intro he
  subst he
  exact h

theorem closes_noClose {t : List Entry} (h : ∀ x ∈ t, NoClose x) (s : Sock) : closes s t = 0 := by
  unfold closes
  rw [List.countP_eq_zero]
  intro x hx
  simpa using (h x hx).1 s

theorem frees_noClose {t : List Entry} (h : ∀ x ∈ t, NoClose x) : frees t = 0 := by
  unfold frees
  rw [List.countP_eq_zero]
  intro x hx
  simpa using (h x hx).2

theorem released_of_shape (r : Ret) (e : Exit) (t0 t : List Entry) (body : List Entry)
    (h0 : t0 = ⟨.socket, some r⟩ :: body) (ht : t = t0 ++ cleanup_trace e)
    (hb : ∀ x ∈ body, NoClose x) (hs : e = .socket ↔ r.val = -1) (hn : r.val = -1 → body = []) :
    Released r t := by
  have hshape : t = ⟨.socket, some r⟩ :: body ++
      (if r.val = -1 then [] else [⟨.close .remote, none⟩]) ++
      [⟨.close .client, none⟩, ⟨.free_args, none⟩] := by
    rw [ht, h0]
    unfold cleanup_trace
    by_cases hr : r.val = -1
    · simp [hr, hs.2 hr]
    · have : e ≠ .socket := fun h => hr (hs.1 h)
      simp [hr, this]
  have hc0 : closes .client body = 0 := closes_noClose hb _
  have hr0 : closes .remote body = 0 := closes_noClose hb _
  have hf0 : frees body = 0 := frees_noClose hb
  unfold closes at hc0 hr0
  unfold frees at hf0
  refine ⟨⟨body, hshape, hb, hn⟩, ?_, ?_, ?_⟩
  · rw [hshape]
    unfold closes
    by_cases hr : r.val = -1 <;>
      simp [hr, List.countP_cons, List.countP_append, hc0]
  · rw [hshape]
    unfold frees
    by_cases hr : r.val = -1 <;>
      simp [hr, List.countP_cons, List.countP_append, hf0]
  · rw [hshape]
    unfold closes
    by_cases hr : r.val = -1 <;>
      simp [hr, List.countP_cons, List.countP_append, hr0]

/-- C6 (resource release on every exit path). Whatever the system calls
answer, a run of `proxy_thread` that returns has issued, from the answer `r` of
`socket` on: calls that are neither `close` nor `free`, then
`close(remote_socket)` if and only if `socket` did not fail, then
`close(client_socket)` and `free(args)` and nothing more. So the client socket
is closed exactly once and the argument block freed exactly once, the remote
socket is closed exactly once if `socket` succeeded and never if it failed, and
after a descriptor is closed nothing but the remaining `close` and the `free`
is issued. -/
theorem resources_released (args : ProxyThreadArgs) (script : List Ret) (e : Exit)
    (h : (proxy_thread args script).status = .returned e) :
    ∃ r rest, script = r :: rest ∧ Released r (proxy_thread args script).world.trace := by
  obtain ⟨t0, h1, h2⟩ := (run_spec args script).returned e h
  rcases h2 with ⟨rs, ⟨sfx, h3⟩, h4, ⟨_, r1, tl, h5, h6, h7⟩, _⟩ |
    ⟨h3, rs, ⟨sfx, h4⟩, h5, ⟨ext, h6⟩⟩
  · subst h5
    refine ⟨r1, tl ++ sfx, by rw [← h3]; simp, ?_⟩
    refine released_of_shape r1 e t0 _ (List.zipWith (fun c r => (⟨c, some r⟩ : Entry))
      (setup_calls args).tail tl) ?_ h1 ?_ h6 ?_
    · rw [h4]; rfl
    · intro x hx
      have : Setup x := est_trace_setup args (r1 :: tl) x (by
        show x ∈ List.zipWith _ (setup_calls args) (r1 :: tl)
        simp only [setup_calls, List.zipWith_cons_cons, List.mem_cons]
        exact Or.inr hx)
      exact this.to_quiet.noClose
    · intro hr
      rw [h7 (h6.2 hr)]
      rfl
  · have hne : rs ≠ [] := by
      intro hrs
      subst hrs
      exact h5
    obtain ⟨r1, tl, hrs⟩ := List.exists_cons_of_ne_nil hne
    subst hrs
    have hr1 : r1.val ≠ -1 := by
      unfold Entered at h5
      split at h5
      · rename_i heq
        simp only [List.cons.injEq] at heq
        rw [heq.1]
        exact h5.1
      · rename_i heq
        simp only [List.cons.injEq] at heq
        rw [heq.1]
        exact h5.1
      · exact absurd h5 id
    refine ⟨r1, tl ++ sfx, by rw [← h4]; simp, ?_⟩
    have hall := h3.all_noClose
    have ht0 : t0 = ⟨.socket, some r1⟩ :: (List.zipWith (fun c r => (⟨c, some r⟩ : Entry))
        (setup_calls args).tail tl ++ ext) := by
      rw [← h6]; rfl
    refine released_of_shape r1 e t0 _ _ ht0 h1 ?_ ?_ ?_
    · intro x hx
      exact hall x (by rw [ht0]; exact List.mem_cons_of_mem _ hx)
    · exact ⟨fun he => absurd he h3.ne_socket, fun hr => absurd hr hr1⟩
    · intro hr
      exact absurd hr hr1

/-- The run on `demo_half_close` returns; it closes each socket once and frees
its argument block once. -/
theorem resources_released_witness :
    ∃ r rest, demo_half_close = r :: rest ∧
      closes .client (proxy_thread demo_args demo_half_close).world.trace = 1 ∧
      frees (proxy_thread demo_args demo_half_close).world.trace = 1 ∧
      closes .remote (proxy_thread demo_args demo_half_close).world.trace = 1 := by
  obtain ⟨r, rest, h1, h2⟩ :=
    resources_released demo_args demo_half_close (.eof .client) (by decide)
  have h3 : r = .ok 5 := by
    have : demo_half_close = .ok 5 :: demo_half_close.tail := rfl
    rw [this] at h1
    exact (List.cons.inj h1).1.symm
  refine ⟨r, rest, h1, h2.client_once, h2.args_once, ?_⟩
  rw [h2.remote_once, h3]
  rfl

/-! ## C7 and C8: the first end-of-stream ends the task -/

/-- C7 (the first end-of-stream ends the task). At the head of every iteration
of the copy loop `remote_shutdown` and `client_shutdown` are both 0, so the
condition of the `break` at the loop head is false; no run returns through that
`break`; and a run that entered the copy loop and returned left it as `ExitWhy`
says: by a `recv` that returned 0 (followed by the `shutdown`, failed or not),
or by a `recv` or `send` that failed with an error other than `EAGAIN`, or by a
`select` that returned -1, this being the last call before the labels. A run
that does not return has used up its script. -/
theorem first_eof_ends (args : ProxyThreadArgs) (script : List Ret) :
    (∀ n l w, head_at args script n = some (l, w) →
      l.remote.shutdown = 0 ∧ l.client.shutdown = 0 ∧
      ¬ (l.remote.len = 0 ∧ l.client.len = 0 ∧ l.remote.shutdown = 1 ∧
        l.client.shutdown = 1)) ∧
    (proxy_thread args script).status ≠ .returned .done ∧
    (∀ e l, (proxy_thread args script).status = .returned e →
      (proxy_thread args script).locals = some l →
      ∃ t0, (proxy_thread args script).world.trace =
          t0 ++ [⟨.close .remote, none⟩, ⟨.close .client, none⟩, ⟨.free_args, none⟩] ∧
        ExitWhy e t0) ∧
    (∀ h, (proxy_thread args script).status = .halted h →
      h = .blocked ∧ (proxy_thread args script).world.script = []) := by
  have hR := run_spec args script
  refine ⟨?_, ?_, ?_, ?_⟩
  · intro n l w hh
    have hH := head_at_head hh
    refine ⟨hH.uR.shut, hH.uC.shut, ?_⟩
    intro hb
    have := hH.uR.shut
    omega
  · intro hst
    obtain ⟨t0, _, h2⟩ := hR.returned .done hst
    rcases h2 with ⟨rs, _, _, ⟨h3, _⟩, _⟩ | ⟨h3, _⟩
    · exact h3
    · exact h3
  · intro e l hst hl
    obtain ⟨t0, h1, h2⟩ := hR.returned e hst
    rcases h2 with ⟨rs, _, _, _, h3⟩ | ⟨h3, _⟩
    · rw [hl] at h3
      simp at h3
    · refine ⟨t0, ?_, h3⟩
      rw [h1]
      simp [cleanup_trace, h3.ne_socket]
  · intro h hst
    obtain ⟨h1, h2, _⟩ := hR.halted h hst
    exact ⟨h1, h2⟩

/-- The run on `demo_half_close` left the copy loop by the client's
end-of-stream, and at the head of iteration 1 both shutdown flags were 0. -/
theorem first_eof_ends_witness :
    (proxy_thread demo_args demo_half_close).status = .returned (.eof .client) ∧
    demo_split_locals.remote.shutdown = 0 ∧ demo_split_locals.client.shutdown = 0 :=
  ⟨by decide,
    ((first_eof_ends demo_args demo_split).1 1 demo_split_locals demo_split_world
      demo_split_head).1,
    ((first_eof_ends demo_args demo_split).1 1 demo_split_locals demo_split_world
      demo_split_head).2.1⟩

/-- C8 (trailing data can be discarded). There is a run of `proxy_thread` in
which the kernel keeps its contract and no call reports an I/O error, which
returns on end-of-stream from the remote while `client_buf` still holds the 3
bytes received from the client, none of them sent: the bytes delivered to the
remote are a strict initial segment of the bytes read from the client. -/
theorem trailing_data_discarded :
    ∃ script l,
      (proxy_thread demo_args script).status = .returned (.eof .remote) ∧
      (proxy_thread demo_args script).locals = some l ∧
      ConfAll (proxy_thread demo_args script).world.trace ∧
      (∀ x ∈ (proxy_thread demo_args script).world.trace, ¬ IoError x) ∧
      unsent l.client = [1, 2, 3] ∧
      rx .client (proxy_thread demo_args script).world.trace = [1, 2, 3] ∧
      tx .remote (proxy_thread demo_args script).world.trace = [] ∧
      tx .remote (proxy_thread demo_args script).world.trace <+:
        rx .client (proxy_thread demo_args script).world.trace ∧
      tx .remote (proxy_thread demo_args script).world.trace ≠
        rx .client (proxy_thread demo_args script).world.trace :=
  ⟨demo_trailing, ⟨⟨[], 0, none, 1⟩, ⟨[1, 2, 3], 3, some 0, 0⟩⟩, by decide, by decide,
    by decide, by decide, by decide, by decide, by decide, by decide, by decide⟩

/-! ## C9: interest registration -/

theorem write_half_select (l : Locals) (fds : Fds) (w : World) (r : Ret) (rest : List Ret)
    (hs : w.script = r :: rest) :
    w.trace ++ [⟨.select fds.rfds fds.wfds none none, some r⟩] <+:
      (write_half l fds w).world.trace := by
  unfold write_half call sys
  simp only [hs]
  split
  · exact List.prefix_refl _
  · have h1 := send_phase_grows .remote l.client
      ⟨fds.rfds.inter r.rfds, fds.wfds.inter r.wfds⟩
      ⟨rest, w.trace ++ [⟨.select fds.rfds fds.wfds none none, some r⟩]⟩
    revert h1
    cases send_phase .remote l.client ⟨fds.rfds.inter r.rfds, fds.wfds.inter r.wfds⟩
      ⟨rest, w.trace ++ [⟨.select fds.rfds fds.wfds none none, some r⟩]⟩ with
    | halt h w2 => exact id
    | leave e a w2 => exact id
    | next a w2 =>
      intro h1
      simp only
      have h2 := send_phase_grows .client l.remote
        ⟨fds.rfds.inter r.rfds, fds.wfds.inter r.wfds⟩ w2
      revert h2
      cases send_phase .client l.remote ⟨fds.rfds.inter r.rfds, fds.wfds.inter r.wfds⟩ w2 with
      | halt h w3 => exact fun h2 => List.IsPrefix.trans h1 h2
      | leave e a w3 => exact fun h2 => List.IsPrefix.trans h1 h2
      | next a w3 => exact fun h2 => List.IsPrefix.trans h1 h2

/-- C9 (interest registration at the readiness wait). Take the state at the
head of any iteration of the copy loop and let the two read attempts fall
through with locals `l2` and descriptor sets `fds`. Then the iteration goes on
with `select` on exactly these sets, and for each direction exactly one
interest is registered: read-interest on the source if and only if `X_len` is
0, write-interest on the destination if and only if `X_len` is not 0 (it is
then positive, the kernel having kept its contract, and `X_len = 0` means that
everything received has been sent; the same holds of every `select` the copy
loop issued before). Hence a send block, which runs only for a
descriptor that `select` left in `wfds`, runs only with `X_len ≠ 0` and
`X_start` initialised, and no run ever reads an uninitialised `X_start`; and a
`recv` that would block leaves the direction's locals as they were and
registers read-interest. -/
theorem interest_registration (args : ProxyThreadArgs) (script : List Ret) (n : Nat)
    (l : Locals) (w : World) (l2 : Locals) (fds : Fds) (w2 : World)
    (hh : head_at args script n = some (l, w))
    (hr : read_half l w = .next (l2, fds) w2) :
    (loop_body l w = write_half l2 fds w2 ∧
      ∀ r rest, w2.script = r :: rest →
        w2.trace ++ [⟨.select fds.rfds fds.wfds none none, some r⟩] <+:
          (loop_body l w).world.trace) ∧
    ((FD_ISSET .remote fds.rfds = true ↔ l2.remote.len = 0) ∧
      (FD_ISSET .client fds.wfds = true ↔ l2.remote.len ≠ 0) ∧
      (FD_ISSET .client fds.rfds = true ↔ l2.client.len = 0) ∧
      (FD_ISSET .remote fds.wfds = true ↔ l2.client.len ≠ 0)) ∧
    (FD_ISSET .remote fds.rfds ≠ FD_ISSET .client fds.wfds ∧
      FD_ISSET .client fds.rfds ≠ FD_ISSET .remote fds.wfds) ∧
    (ConfAll w2.trace →
      0 ≤ l2.remote.len ∧ 0 ≤ l2.client.len ∧
      (l2.remote.len = 0 ↔ tx .client w2.trace = rx .remote w2.trace) ∧
      (l2.client.len = 0 ↔ tx .remote w2.trace = rx .client w2.trace) ∧
      ∀ pre rf wf a post, w2.trace = pre ++ ⟨.select rf wf none none, a⟩ :: post →
        ∀ src : Sock, (FD_ISSET src rf = true ↔ tx src.peer pre = rx src pre) ∧
          (FD_ISSET src.peer wf = true ↔ tx src.peer pre ≠ rx src pre)) ∧
    (∀ ready : Ret,
      (FD_ISSET .remote (fds.wfds.inter ready.wfds) = true →
        l2.client.len ≠ 0 ∧ l2.client.start ≠ none) ∧
      (FD_ISSET .client (fds.wfds.inter ready.wfds) = true →
        l2.remote.len ≠ 0 ∧ l2.remote.start ≠ none)) ∧
    (proxy_thread args script).status ≠ .halted .uninit ∧
    (∀ src d fds0 w0 r rest, d.len = 0 → d.shutdown = 0 → w0.script = r :: rest →
      r.val = -1 → r.errno = EAGAIN →
      recv_phase src d fds0 w0 = .next (d, ⟨FD_SET src fds0.rfds, fds0.wfds⟩)
        ⟨rest, w0.trace ++ [⟨.recv src JAP_BUFFER_SIZE, some r⟩]⟩) := by
  have hH := head_at_head hh
  have hM0 := read_half_spec l w hH
  rw [hr] at hM0
  have hM : Mid l2 fds w2 := hM0.1
  have hbody : loop_body l w = write_half l2 fds w2 := by
    unfold loop_body
    rw [hr]
  refine ⟨⟨hbody, ?_⟩, ⟨hM.rbitR, hM.wbitR, hM.rbitC, hM.wbitC⟩, ⟨?_, ?_⟩, ?_, ?_, ?_, ?_⟩
  · intro r rest hs
    rw [hbody]
    exact write_half_select l2 fds w2 r rest hs
  · intro heq
    have h1 := hM.rbitR
    have h2 := hM.wbitR
    rw [heq] at h1
    exact (h2.1 (h1.2 (by_contra fun hne => hne (h1.1 (h2.2 hne))))) (h1.1 (h2.2 (by
      intro h0
      exact (h2.1 (h1.2 h0)) h0)))
  · intro heq
    have h1 := hM.rbitC
    have h2 := hM.wbitC
    rw [heq] at h1
    exact (h2.1 (h1.2 (by_contra fun hne => hne (h1.1 (h2.2 hne))))) (h1.1 (h2.2 (by
      intro h0
      exact (h2.1 (h1.2 h0)) h0)))
  · intro hc
    refine ⟨(hM.dirR hc).len_nonneg, (hM.dirC hc).len_nonneg, (hM.dirR hc).flushed_iff,
      (hM.dirC hc).flushed_iff, ?_⟩
    intro pre rf wf a post ht
    have hcp : ConfAll pre := by rw [ht] at hc; exact hc.left
    exact hM.ok pre _ post ht hcp
  · intro ready
    constructor
    · intro hb
      have hl := hM.wbitC.1 (FD_ISSET_inter hb)
      exact ⟨hl, hM.uC.init hl⟩
    · intro hb
      have hl := hM.wbitR.1 (FD_ISSET_inter hb)
      exact ⟨hl, hM.uR.init hl⟩
  · intro hst
    have := ((run_spec args script).halted _ hst).1
    cases this
  · intro src d fds0 w0 r rest hl hsd hs hv he
    simp [recv_phase, call, sys, hl, hsd, hs, hv, he]

theorem demo_split_read :
    read_half init_locals demo_read_start = .next (demo_read_locals, demo_read_fds)
      demo_read_world := by
  decide

/-- In iteration 0 of the run on `demo_split` the remote direction is empty
and registers read-interest on the remote socket; the client direction holds 3
bytes and registers write-interest on the remote socket and no read-interest. -/
theorem interest_registration_witness :
    demo_read_locals.remote.len = 0 ∧ demo_read_locals.client.len = 3 ∧
    (FD_ISSET .remote demo_read_fds.rfds = true ↔ demo_read_locals.remote.len = 0) ∧
    (FD_ISSET .remote demo_read_fds.wfds = true ↔ demo_read_locals.client.len ≠ 0) ∧
    FD_ISSET .client demo_read_fds.rfds ≠ FD_ISSET .remote demo_read_fds.wfds :=
  have h := interest_registration demo_args demo_split 0 init_locals demo_read_start
    demo_read_locals demo_read_fds demo_read_world (by decide) demo_split_read
  ⟨rfl, rfl, h.2.1.1, h.2.1.2.2.2, h.2.2.1.2⟩

/-! ## C4 and C10: the accept loop -/

/-- C4, as stated, fails: a permitted connection for which `pthread_create`
returns `EAGAIN` gets no relay thread. -/
theorem access_filter_counterexample :
    (demo_cfg.restricted = 0 ∨
      demo_refused.client_address.s_addr = demo_cfg.restriction_address.s_addr) ∧
    started (main_iteration demo_cfg demo_refused) = [] := by
  decide

/-- C4, amended (access filter in the accept loop). An accepted connection is
permitted if and only if no restriction is configured or the client's source
address equals the restriction address; the source port plays no role. When it
is denied, `main` closes the client socket and calls neither `malloc` nor
`pthread_create`: no relay thread exists for it. When it is permitted, `main`
does not close the socket; it fills an argument block with the configured
remote address and the client socket and calls `pthread_create` on it, and a
relay thread with these arguments is started exactly when that call returns 0. -/
theorem access_filter (cfg : Config) (a : Accept) :
    ((cfg.restricted = 0 ∨ a.client_address.s_addr = cfg.restriction_address.s_addr) →
      main_iteration cfg a = .setsockopt_nodelay a.client_socket ::
        .malloc ⟨cfg.remote_address, a.client_socket⟩ ::
        .pthread_create ⟨cfg.remote_address, a.client_socket⟩ a.pthread_create ::
        (if a.pthread_create ≠ 0 then [] else [.pthread_detach]) ∧
      started (main_iteration cfg a) =
        (if a.pthread_create = 0 then [⟨cfg.remote_address, a.client_socket⟩] else []) ∧
      MainCall.close a.client_socket ∉ main_iteration cfg a) ∧
    (¬ (cfg.restricted = 0 ∨ a.client_address.s_addr = cfg.restriction_address.s_addr) →
      main_iteration cfg a = [.setsockopt_nodelay a.client_socket, .close a.client_socket] ∧
      started (main_iteration cfg a) = []) ∧
    (∀ port, main_iteration cfg { a with client_address := ⟨port, a.client_address.s_addr⟩ } =
      main_iteration cfg a) := by
  refine ⟨?_, ?_, ?_⟩
  · intro hp
    have hc : cfg.restricted = 0 ∨
        (cfg.restricted ≠ 0 ∧ a.client_address.s_addr = cfg.restriction_address.s_addr) := by
      by_cases h0 : cfg.restricted = 0
      · exact Or.inl h0
      · exact Or.inr ⟨h0, hp.resolve_left h0⟩
    have hs : main_iteration cfg a = .setsockopt_nodelay a.client_socket ::
        .malloc ⟨cfg.remote_address, a.client_socket⟩ ::
        .pthread_create ⟨cfg.remote_address, a.client_socket⟩ a.pthread_create ::
        (if a.pthread_create ≠ 0 then [] else [.pthread_detach]) := by
      unfold main_iteration
      rw [if_pos hc]
    rw [hs]
    refine ⟨rfl, ?_, ?_⟩
    · by_cases hz : a.pthread_create = 0 <;> simp [started, hz]
    · by_cases hz : a.pthread_create = 0 <;> simp [hz]
  · intro hp
    have hc : ¬ (cfg.restricted = 0 ∨
        (cfg.restricted ≠ 0 ∧ a.client_address.s_addr = cfg.restriction_address.s_addr)) := by
      intro h
      rcases h with h | h
      · exact hp (Or.inl h)
      · exact hp (Or.inr h.2)
    have hs : main_iteration cfg a = [.setsockopt_nodelay a.client_socket, .close a.client_socket] := by
      unfold main_iteration
      rw [if_neg hc]
    rw [hs]
    exact ⟨rfl, rfl⟩
  · intro port
    rfl

/-- A connection from address 9 is denied by `demo_cfg_restricted`: `main`
closes descriptor 4 and starts no thread. -/
theorem access_filter_witness :
    main_iteration demo_cfg_restricted demo_stranger = [.setsockopt_nodelay 4, .close 4] ∧
    started (main_iteration demo_cfg_restricted demo_stranger) = [] :=
  (access_filter demo_cfg_restricted demo_stranger).2.1 (by decide)

/-- C10 fails on the path where `pthread_create` fails: for a permitted
connection accepted as descriptor 4, `main` allocates the argument block and
calls `pthread_create`; when that returns `EAGAIN` it does nothing more, so
descriptor 4 is not closed by `main`, and no relay thread that would close it
was started. -/
theorem accept_leak :
    main_iteration demo_cfg demo_refused =
      [.setsockopt_nodelay 4, .malloc ⟨⟨80, 1⟩, 4⟩, .pthread_create ⟨⟨80, 1⟩, 4⟩ 11] ∧
    MainCall.close 4 ∉ main_iteration demo_cfg demo_refused ∧
    started (main_iteration demo_cfg demo_refused) = [] ∧
    (main demo_cfg [demo_refused]).1 = main_iteration demo_cfg demo_refused := by
  decide

end Jap
